import Mathlib

/-!
Shallow embedding of the Acurast marketplace pallet
(`src/pallets/marketplace/src/lib.rs` and `src/pallets/marketplace/src/utils.rs`),
together with the parts of the job/schedule data model that the pallet imports.

Machine integers are modelled as `Nat` (for `u8`/`u32`/`u64`/`u128` values) and
`Int` (for the `i64` storage capacity), with explicit checked operations that
return `Option` exactly where the Rust code uses `checked_add`/`checked_sub`/
`checked_mul`.  Storage maps are modelled as functions `key → Option value`,
except `StoredMatches`, which the code iterates over and is therefore modelled
as an association list.  Fallible operations return `Except MError`.
-/

namespace Acurast

/-! ## Machine integers -/

def u64Max : Nat := 18446744073709551615

def u128Max : Nat := 340282366920938463463374607431768211455

def i64MaxI : Int := 9223372036854775807

def i64MinI : Int := -9223372036854775808

/-- `u64::checked_add`. -/
def checkedAdd64 (a b : Nat) : Option Nat :=
  if a + b ≤ u64Max then some (a + b) else none

/-- `u64::checked_mul`. -/
def checkedMul64 (a b : Nat) : Option Nat :=
  if a * b ≤ u64Max then some (a * b) else none

/-- `u128::checked_add` (the `AssetAmount` type). -/
def checkedAdd128 (a b : Nat) : Option Nat :=
  if a + b ≤ u128Max then some (a + b) else none

/-- `u128::checked_mul` (the `AssetAmount` type). -/
def checkedMul128 (a b : Nat) : Option Nat :=
  if a * b ≤ u128Max then some (a * b) else none

/-- `checked_sub` on an unsigned asset amount: fails below zero. -/
def checkedSubAmount (a b : Nat) : Option Nat :=
  if b ≤ a then some (a - b) else none

/-- `i64::checked_add` where the second operand is a cast unsigned value. -/
def checkedAddI64 (a : Int) (b : Nat) : Option Int :=
  if a + (b : Int) ≤ i64MaxI then some (a + (b : Int)) else none

/-- `i64::checked_sub` where the second operand is a cast unsigned value. -/
def checkedSubI64 (a : Int) (b : Nat) : Option Int :=
  if i64MinI ≤ a - (b : Int) then some (a - (b : Int)) else none

/-- `saturated_into::<u64>()`. -/
def saturatedIntoU64 (a : Nat) : Nat := min a u64Max

/-! ## Identifiers -/

/-- Account ids are kept abstract; a countable carrier suffices. -/
def AccountId : Type := Nat

/-- The script identifying a job (an ipfs url in the code). -/
def ScriptId : Type := Nat

/-- An asset id (`T::AssetId`). -/
def AssetId : Type := Nat

/-- A Job ID consists of an `AccountId` and a `Script`. -/
def JobIdM : Type := AccountId × ScriptId

instance : DecidableEq AccountId := instDecidableEqNat
instance : DecidableEq ScriptId := instDecidableEqNat
instance : DecidableEq AssetId := instDecidableEqNat
instance : DecidableEq JobIdM := instDecidableEqProd

instance : OfNat AccountId n := ⟨(n : Nat)⟩
instance : OfNat ScriptId n := ⟨(n : Nat)⟩
instance : OfNat AssetId n := ⟨(n : Nat)⟩

/-! ## Schedule -/

/-- The recurring execution plan of a job; all units are milliseconds.
Modelled from the spec: the `Schedule` type itself is declared outside the
provided sources (only its callers in the marketplace pallet are in `src/`);
the spec's data-model table lists `start_time, end_time, duration, interval`. -/
structure Schedule where
  duration : Nat
  start_time : Nat
  end_time : Nat
  interval : Nat
  deriving DecidableEq

/-- Modelled from the spec: `execution_count(schedule)` — the number of
repetitions between `start_time` and `end_time` given `interval`; pinned by
Scenario A (`start=1000, end=5000, duration=500, interval=1000` has 4
executions), giving `(end_time - start_time - duration) / interval + 1`
with truncating subtraction. -/
def Schedule.execution_count (s : Schedule) : Nat :=
  (s.end_time - s.start_time - s.duration) / s.interval + 1

/-- Modelled from the spec: `iterate(schedule, start_delay)` — the finite
sequence of execution start timestamps, each offset by `start_delay` from the
schedule's base cadence `start_time + k * interval`, failing with overflow if
any addition exceeds the u64 range.  `Schedule::iter` is declared outside the
provided sources. -/
def Schedule.executionStarts (s : Schedule) (start_delay : Nat) : Option (List Nat) :=
  (List.range s.execution_count).mapM fun k =>
    (checkedMul64 k s.interval).bind fun off =>
      (checkedAdd64 s.start_time start_delay).bind fun base =>
        checkedAdd64 base off

/-- Modelled from the spec: `overlaps(schedule, start_delay, window_start,
window_end)` is true iff some execution's interval
`[exec_start, exec_start + duration)` intersects `[window_start, window_end]`,
returning `none` (not `false`) on arithmetic overflow.  `Schedule::overlaps`
is declared outside the provided sources. -/
def Schedule.overlaps (s : Schedule) (start_delay t0 t1 : Nat) : Option Bool :=
  (s.executionStarts start_delay).bind fun starts =>
    (starts.mapM fun es => (checkedAdd64 es s.duration).map fun ee => (es, ee)).map
      fun l => l.any fun p => decide (p.1 ≤ t1) && decide (t0 < p.2)

/-! ## Marketplace data model
The marketplace `types.rs` is not among the provided sources (only its users
in `lib.rs` are), so the following record types are modelled from the spec's
data-model table and from their field accesses in `lib.rs`. -/

/-- Modelled from the spec: SLA counters `{total, met}` of an assignment. -/
structure SLA where
  total : Nat
  met : Nat
  deriving DecidableEq

/-- Reward: an asset id together with an amount (`try_get_asset_id` /
`try_get_amount` / `with_amount` always succeed on this concrete model).
Modelled from the spec's reward-manager interface. -/
structure RewardM where
  assetId : AssetId
  amount : Nat
  deriving DecidableEq

/-- Modelled from the spec: a committed pairing
`{slot, start_delay, fee_per_execution, acknowledged, sla}`. -/
structure Assignment where
  slot : Nat
  start_delay : Nat
  fee_per_execution : RewardM
  acknowledged : Bool
  sla : SLA
  deriving DecidableEq

/-- Modelled from the spec: job lifecycle marker `Open | Matched | Assigned(count)`. -/
inductive JobStatusM where
  | open
  | matched
  | assigned (count : Nat)
  deriving DecidableEq

/-- Modelled from the spec: the provider capability envelope
`{max_memory, network_request_quota, storage_capacity, allowed_consumers}`. -/
structure AdvertisementRestriction where
  max_memory : Nat
  network_request_quota : Nat
  storage_capacity : Nat
  allowed_consumers : Option (List AccountId)
  deriving DecidableEq

/-- Modelled from the spec: a scheduling window is either an absolute deadline
`End(deadline)` or a relative one `Delta(window)`. -/
inductive SchedulingWindow where
  | endAt (deadline : Nat)
  | delta (window : Nat)
  deriving DecidableEq

/-- Modelled from the spec: a provider's price for one reward asset. -/
structure PricingVariant where
  reward_asset : AssetId
  fee_per_millisecond : Nat
  fee_per_storage_byte : Nat
  base_fee_per_execution : Nat
  scheduling_window : SchedulingWindow
  deriving DecidableEq

/-- Modelled from the spec: the full advertisement passed to `advertise`. -/
structure Advertisement where
  pricing : List PricingVariant
  max_memory : Nat
  network_request_quota : Nat
  storage_capacity : Nat
  allowed_consumers : Option (List AccountId)
  deriving DecidableEq

/-- Modelled from the spec: one planned execution `{source, start_delay}`. -/
structure PlannedExecution where
  source : AccountId
  start_delay : Nat
  deriving DecidableEq

/-- Modelled from the spec: a proposed pairing `{job_id, sources}`. -/
structure MatchProposal where
  job_id : JobIdM
  sources : List PlannedExecution
  deriving DecidableEq

/-- Modelled from the spec: the job requirements carried in the registration's
`extra` field: `{slots, reward}`. -/
structure JobRequirements where
  slots : Nat
  reward : RewardM
  deriving DecidableEq

/-- Modelled from the spec: a job registration, with the fields the
marketplace pallet reads (`schedule`, `memory`, `network_requests`, `storage`,
whitelists, and the requirements in `extra`). -/
structure JobRegistrationM where
  script : ScriptId
  allowed_sources : Option (List AccountId)
  allow_only_verified_sources : Bool
  schedule : Schedule
  memory : Nat
  network_requests : Nat
  storage : Nat
  extra : JobRequirements
  deriving DecidableEq

/-- The execution result reported by a provider. -/
inductive ExecutionResult where
  | success (operationHash : Nat)
  | failure (message : Nat)
  deriving DecidableEq

/-! ## Errors (from the `Error<T>` enum in `lib.rs`) -/

inductive MError where
  | calculationOverflow
  | rewardConversionFailed
  | jobStatusNotFound
  | cannotAcknowledgeWhenNotMatched
  | cannotReportWhenNotAcknowledged
  | advertisementNotFound
  | advertisementPricingNotFound
  | emptyPricing
  | failedToPay
  | assetNotAllowedByBarrier
  | capacityNotFound
  | emptyMatching
  | overdueMatch
  | incorrectSourceCountInMatch
  | duplicateSourceInMatch
  | unverifiedSourceInMatch
  | multipleRewardAssetsInMatch
  | schedulingWindowExceededInMatch
  | maxMemoryExceededInMatch
  | networkRequestQuotaExceededInMatch
  | insufficientStorageCapacityInMatch
  | sourceNotAllowedInMatch
  | consumerNotAllowedInMatch
  | insufficientRewardInMatch
  | scheduleOverlapInMatch
  | reportFromUnassignedSource
  | moreReportsThanExpected
  | reportOutsideSchedule
  | jobRegistrationNotFound
  deriving DecidableEq

/-! ## Events -/

inductive MEvent where
  | jobRegistrationMatched (m : MatchProposal)
  | jobRegistrationAssigned (jobId : JobIdM) (who : AccountId) (a : Assignment)
  | reported (jobId : JobIdM) (who : AccountId) (a : Assignment)
  | advertisementStored (adv : Advertisement) (who : AccountId)
  | executionSuccess (jobId : JobIdM) (operationHash : Nat)
  | executionFailure (jobId : JobIdM) (message : Nat)
  deriving DecidableEq

/-! ## State -/

/-- Pointwise update of a function-backed storage map. -/
def upd {K V : Type} [DecidableEq K] (f : K → Option V) (k : K) (v : Option V) :
    K → Option V :=
  fun k' => if k' = k then v else f k'

/-- The pallet storage, plus the externally observable effect logs
(deposited events and payments made through the reward manager). -/
structure MarketState where
  storedJobStatus : JobIdM → Option JobStatusM
  storedAdvertisementRestriction : AccountId → Option AdvertisementRestriction
  storedAdvertisementPricing : AccountId → AssetId → Option PricingVariant
  storedStorageCapacity : AccountId → Option Int
  storedMatches : List ((AccountId × JobIdM) × Assignment)
  storedJobRegistration : JobIdM → Option JobRegistrationM
  events : List MEvent
  matcherPayments : List (RewardM × AccountId)
  rewardPayments : List (RewardM × AccountId)

/-- First-match lookup in `StoredMatches`. -/
def smLookup (l : List ((AccountId × JobIdM) × Assignment)) (k : AccountId × JobIdM) :
    Option Assignment :=
  match l with
  | [] => none
  | e :: rest => if e.1 = k then some e.2 else smLookup rest k

/-- Replace the value at all entries with the given key. -/
def smUpdate (l : List ((AccountId × JobIdM) × Assignment)) (k : AccountId × JobIdM)
    (v : Assignment) : List ((AccountId × JobIdM) × Assignment) :=
  l.map fun e => if e.1 = k then (e.1, v) else e

/-- Remove all entries with the given key. -/
def smRemove (l : List ((AccountId × JobIdM) × Assignment)) (k : AccountId × JobIdM) :
    List ((AccountId × JobIdM) × Assignment) :=
  l.filter fun e => e.1 ≠ k

/-- All matches of one source, in storage iteration order. -/
def smOfSource (l : List ((AccountId × JobIdM) × Assignment)) (source : AccountId) :
    List ((AccountId × JobIdM) × Assignment) :=
  l.filter fun e => e.1.1 = source

/-- The external collaborators consulted by the pallet: clock, attestation
check, asset validator and reward manager, as listed in spec §6. -/
structure Env where
  now : Nat
  verified : AccountId → Bool
  validAsset : AssetId → Bool
  matcherPayOk : RewardM → AccountId → Bool
  rewardPayOk : RewardM → AccountId → Bool
  reportTolerance : Nat

/-! ## Whitelists (`utils.rs`) -/

/-- `is_consumer_whitelisted` from `utils.rs`. -/
def is_consumer_whitelisted (consumer : AccountId)
    (allowed_consumers : Option (List AccountId)) : Bool :=
  match allowed_consumers with
  | some l => l.any fun c => c = consumer
  | none => true

/-- `is_source_whitelisted` from `utils.rs`. -/
def is_source_whitelisted (source : AccountId) (reg : JobRegistrationM) : Bool :=
  match reg.allowed_sources with
  | some l => l.any fun c => c = source
  | none => true

/-! ## Pricing calculator (`lib.rs` lines 880-917) -/

/-- `fee_per_execution`: `fee_per_millisecond * duration + fee_per_storage_byte *
storage + base_fee_per_execution`, all checked. -/
def fee_per_execution (reg : JobRegistrationM) (pricing : PricingVariant) :
    Except MError Nat :=
  match checkedMul128 pricing.fee_per_millisecond reg.schedule.duration with
  | none => .error .calculationOverflow
  | some a =>
    match checkedMul128 pricing.fee_per_storage_byte reg.storage with
    | none => .error .calculationOverflow
    | some b =>
      match checkedAdd128 a b with
      | none => .error .calculationOverflow
      | some c =>
        match checkedAdd128 c pricing.base_fee_per_execution with
        | none => .error .calculationOverflow
        | some d => .ok d

/-- `total_reward_amount`: `reward_amount * slots * execution_count`, checked. -/
def total_reward_amount (reg : JobRegistrationM) : Except MError Nat :=
  match checkedMul128 reg.extra.reward.amount reg.extra.slots with
  | none => .error .calculationOverflow
  | some a =>
    match checkedMul128 a reg.schedule.execution_count with
    | none => .error .calculationOverflow
    | some b => .ok b

/-! ## Admission checks inside `process_matching` -/

/-- The network-request-quota comparison of `process_matching`
(`lib.rs` lines 690-707): `duration * network_request_quota >=
network_requests * 1000`, with `unwrap_or(0)` on the left product and
`unwrap_or(u64::MAX)` on the right product. -/
def networkQuotaOk (duration quota network_requests : Nat) : Bool :=
  decide (((checkedMul64 duration quota).getD 0) ≥
    ((checkedMul64 (saturatedIntoU64 network_requests) 1000).getD u64Max))

/-- The scheduling-window check of `process_matching` (`lib.rs` lines 657-681). -/
def checkSchedulingWindow (now : Nat) (w : SchedulingWindow)
    (end_time start_delay : Nat) : Except MError Unit :=
  match w with
  | .endAt deadline =>
    match checkedAdd64 end_time start_delay with
    | none => .error .calculationOverflow
    | some t =>
      if deadline ≥ t then .ok () else .error .schedulingWindowExceededInMatch
  | .delta window =>
    match checkedAdd64 now window with
    | none => .error .calculationOverflow
    | some nt =>
      match checkedAdd64 end_time start_delay with
      | none => .error .calculationOverflow
      | some t =>
        if nt ≥ t then .ok () else .error .schedulingWindowExceededInMatch

/-! ## `fits_schedule` (`lib.rs` lines 831-877) -/

/-- The per-execution occupancy intervals used by `fits_schedule`:
each execution start is paired with `start.checked_add(schedule.interval)`
(note: `interval`, not `duration`, per `lib.rs` lines 853 and 861). -/
def intervalsOf (s : Schedule) (start_delay : Nat) :
    Option (List (Option (Nat × Nat))) :=
  (s.executionStarts start_delay).map fun starts =>
    starts.map fun st => (checkedAdd64 st s.interval).map fun e => (st, e)

/-- The ordering used by the two-pointer merge (`Option` and lexicographic
tuple order, `None` first, left-biased on ties, as itertools' `merge`). -/
def optIntervalLe : Option (Nat × Nat) → Option (Nat × Nat) → Bool
  | none, _ => true
  | some _, none => false
  | some a, some b => decide (a.1 < b.1) || (decide (a.1 = b.1) && decide (a.2 ≤ b.2))

/-- Two-pointer merge of the two interval sequences (`it.merge(other_it)`),
written with an explicit fuel (the sum of the lengths, always sufficient) so
that it is structurally recursive and computes definitionally. -/
def mergeSortedFuel : Nat → List (Option (Nat × Nat)) → List (Option (Nat × Nat)) →
    List (Option (Nat × Nat))
  | 0, xs, ys => xs ++ ys
  | _ + 1, [], ys => ys
  | _ + 1, x :: xs, [] => x :: xs
  | n + 1, x :: xs, y :: ys =>
    if optIntervalLe x y then x :: mergeSortedFuel n xs (y :: ys)
    else y :: mergeSortedFuel n (x :: xs) ys

/-- Two-pointer merge of the two interval sequences (`it.merge(other_it)`). -/
def mergeSorted (xs ys : List (Option (Nat × Nat))) : List (Option (Nat × Nat)) :=
  mergeSortedFuel (xs.length + ys.length) xs ys

/-- The left fold of `fits_schedule` tracking the previous interval's end:
a new interval starting before the previous end is a schedule overlap. -/
def foldCheckOverlap : Nat → List (Option (Nat × Nat)) → Except MError Nat
  | prevEnd, [] => .ok prevEnd
  | _, none :: _ => .error .calculationOverflow
  | prevEnd, some b :: rest =>
    if prevEnd > b.1 then .error .scheduleOverlapInMatch
    else foldCheckOverlap b.2 rest

/-- One iteration of the `fits_schedule` loop: check the proposed schedule
against one committed assignment's schedule. -/
def fitsAgainst (st : MarketState) (schedule : Schedule) (start_delay : Nat)
    (job_id : JobIdM) (a : Assignment) : Except MError Unit :=
  match st.storedJobRegistration job_id with
  | none => .error .jobRegistrationNotFound
  | some other =>
    if schedule.start_time ≥ other.schedule.end_time ∨
        schedule.end_time ≤ other.schedule.start_time then
      .ok ()
    else
      match intervalsOf schedule start_delay with
      | none => .error .calculationOverflow
      | some l1 =>
        match intervalsOf other.schedule a.start_delay with
        | none => .error .calculationOverflow
        | some l2 =>
          match foldCheckOverlap 0 (mergeSorted l1 l2) with
          | .error e => .error e
          | .ok _ => .ok ()

/-- The `fits_schedule` loop over a list of committed matches. -/
def fitsList (st : MarketState) (schedule : Schedule) (start_delay : Nat) :
    List ((AccountId × JobIdM) × Assignment) → Except MError Unit
  | [] => .ok ()
  | e :: rest =>
    match fitsAgainst st schedule start_delay e.1.2 e.2 with
    | .error er => .error er
    | .ok _ => fitsList st schedule start_delay rest

/-- `fits_schedule`: checks the proposed schedule against every schedule
already committed to the source. -/
def fits_schedule (st : MarketState) (source : AccountId) (schedule : Schedule)
    (start_delay : Nat) : Except MError Unit :=
  fitsList st schedule start_delay (smOfSource st.storedMatches source)

/-! ## `process_matching` (`lib.rs` lines 597-821) -/

/-- The `Assignment` record created for a slot (`lib.rs` lines 764-773). -/
def slotAssignment (reg : JobRegistrationM) (slot : Nat) (pe : PlannedExecution)
    (fee : Nat) : Assignment :=
  { slot := slot % 256
    start_delay := pe.start_delay
    fee_per_execution := { reg.extra.reward with amount := fee }
    acknowledged := false
    sla := { total := reg.schedule.execution_count, met := 0 } }

/-- Processing of one slot of a match (the body of the
`for (slot, planned_execution)` loop, `lib.rs` lines 640-784): all admission
checks, fee computation and accumulation, assignment creation and capacity
decrement. -/
def processSlot (env : Env) (reg : JobRegistrationM) (job_id : JobIdM)
    (reward_amount : Nat) (st : MarketState) (total_fee : Nat) (slot : Nat)
    (pe : PlannedExecution) : Except MError (MarketState × Nat) :=
  if reg.allow_only_verified_sources ∧ ¬ env.verified pe.source then
    .error .unverifiedSourceInMatch
  else
    match st.storedAdvertisementRestriction pe.source with
    | none => .error .advertisementNotFound
    | some ad =>
      match st.storedAdvertisementPricing pe.source reg.extra.reward.assetId with
      | none => .error .advertisementPricingNotFound
      | some pricing =>
        match checkSchedulingWindow env.now pricing.scheduling_window
            reg.schedule.end_time pe.start_delay with
        | .error e => .error e
        | .ok _ =>
          if ¬ (ad.max_memory ≥ reg.memory) then .error .maxMemoryExceededInMatch
          else if ¬ networkQuotaOk reg.schedule.duration ad.network_request_quota
              reg.network_requests then
            .error .networkRequestQuotaExceededInMatch
          else
            match st.storedStorageCapacity pe.source with
            | none => .error .capacityNotFound
            | some capacity =>
              if ¬ (capacity > 0) then .error .insufficientStorageCapacityInMatch
              else if ¬ is_source_whitelisted pe.source reg then
                .error .sourceNotAllowedInMatch
              else if ¬ is_consumer_whitelisted job_id.1 ad.allowed_consumers then
                .error .consumerNotAllowedInMatch
              else
                match fits_schedule st pe.source reg.schedule pe.start_delay with
                | .error e => .error e
                | .ok _ =>
                  match fee_per_execution reg pricing with
                  | .error e => .error e
                  | .ok fee =>
                    if ¬ (fee ≤ reward_amount) then .error .insufficientRewardInMatch
                    else
                      match checkedMul128 fee reg.schedule.execution_count with
                      | none => .error .calculationOverflow
                      | some feeTimesCount =>
                        match checkedAdd128 total_fee feeTimesCount with
                        | none => .error .calculationOverflow
                        | some total_fee' =>
                          match smLookup st.storedMatches (pe.source, job_id) with
                          | some _ => .error .duplicateSourceInMatch
                          | none =>
                            .ok ({ st with
                                  storedMatches :=
                                    ((pe.source, job_id), slotAssignment reg slot pe fee)
                                      :: st.storedMatches
                                  storedStorageCapacity :=
                                    upd st.storedStorageCapacity pe.source
                                      (checkedSubI64 capacity reg.storage) },
                                total_fee')

/-- The slot loop of `process_matching`. -/
def processSlots (env : Env) (reg : JobRegistrationM) (job_id : JobIdM)
    (reward_amount : Nat) :
    MarketState → Nat → Nat → List PlannedExecution →
    Except MError (MarketState × Nat)
  | st, total_fee, _, [] => .ok (st, total_fee)
  | st, total_fee, slot, pe :: rest =>
    match processSlot env reg job_id reward_amount st total_fee slot pe with
    | .error e => .error e
    | .ok (st', tf') =>
      processSlots env reg job_id reward_amount st' tf' (slot + 1) rest

/-- Processing of one match of `process_matching` (the body of the
`for m in matching` loop, `lib.rs` lines 603-810), threading the
remaining-reward accumulator. -/
def processMatchOne (env : Env) (st : MarketState) (m : MatchProposal)
    (remaining : Option (RewardM × Nat)) :
    Except MError (MarketState × Option (RewardM × Nat)) :=
  match st.storedJobRegistration m.job_id with
  | none => .error .jobRegistrationNotFound
  | some reg =>
    if ¬ (env.now < reg.schedule.start_time) then .error .overdueMatch
    else
      if ¬ ((if m.sources.length < 256 then m.sources.length else 0) =
          reg.extra.slots) then
        .error .incorrectSourceCountInMatch
      else if ¬ env.validAsset reg.extra.reward.assetId then
        .error .assetNotAllowedByBarrier
      else
        match processSlots env reg m.job_id reg.extra.reward.amount st 0 0
            m.sources with
        | .error e => .error e
        | .ok (st', total_fee) =>
          match total_reward_amount reg with
          | .error e => .error e
          | .ok total =>
            match checkedSubAmount total total_fee with
            | none => .error .insufficientRewardInMatch
            | some diff =>
              if ¬ (diff ≥ 0) then .error .insufficientRewardInMatch
              else
                match
                  (match remaining with
                   | some (r, acc) =>
                     if ¬ (r = reg.extra.reward) then
                       Except.error MError.multipleRewardAssetsInMatch
                     else
                       match checkedAdd128 acc diff with
                       | none => Except.error MError.calculationOverflow
                       | some acc' => Except.ok (r, acc')
                   | none => Except.ok (reg.extra.reward, diff)) with
                | .error e => .error e
                | .ok rem' =>
                  .ok ({ st' with
                         storedJobStatus :=
                           upd st'.storedJobStatus (m.job_id.1, reg.script)
                             (some .matched)
                         events := .jobRegistrationMatched m :: st'.events },
                       some rem')

/-- The match loop of `process_matching`. -/
def processMatchingGo (env : Env) :
    MarketState → Option (RewardM × Nat) → List MatchProposal →
    Except MError (MarketState × Option (RewardM × Nat))
  | st, remaining, [] => .ok (st, remaining)
  | st, remaining, m :: rest =>
    match processMatchOne env st m remaining with
    | .error e => .error e
    | .ok (st', rem') => processMatchingGo env st' rem' rest

/-- `process_matching`: checks all matches and returns the accumulated
remaining reward; an empty matching yields `EmptyMatching`. -/
def process_matching (env : Env) (st : MarketState)
    (matching : List MatchProposal) : Except MError (MarketState × RewardM) :=
  match processMatchingGo env st none matching with
  | .error e => .error e
  | .ok (st', some (r, amt)) => .ok (st', { r with amount := amt })
  | .ok (_, none) => .error .emptyMatching

/-- The body of the `propose_matching` extrinsic: process the matches, then
pay the accumulated remaining reward to the matcher (last, because paying is
not revertible). -/
def proposeMatchingRaw (env : Env) (st : MarketState) (who : AccountId)
    (ms : List MatchProposal) : Except MError MarketState :=
  match process_matching env st ms with
  | .error e => .error e
  | .ok (st', reward) =>
    if env.matcherPayOk reward who then
      .ok { st' with matcherPayments := (reward, who) :: st'.matcherPayments }
    else .error .failedToPay

/-- `propose_matching` as dispatched. Modelled from the spec: each exposed
operation is an atomic call that succeeds or fails as a whole (spec §5 and
§4.3 atomicity; the transactional dispatch layer is outside the provided
sources), so a dispatch error reverts every storage mutation of the call. -/
def propose_matching (env : Env) (st : MarketState) (who : AccountId)
    (ms : List MatchProposal) : Except MError Unit × MarketState :=
  match proposeMatchingRaw env st who ms with
  | .ok st' => (.ok (), st')
  | .error e => (.error e, st)

/-! ## `acknowledge_match` (`lib.rs` lines 335-378) -/

/-- The body of the `acknowledge_match` extrinsic. -/
def acknowledgeMatchRaw (st : MarketState) (who : AccountId) (job_id : JobIdM) :
    Except MError MarketState :=
  match smLookup st.storedMatches (who, job_id) with
  | none => .error .cannotAcknowledgeWhenNotMatched
  | some a =>
    let changed := ¬ a.acknowledged
    let a' := { a with acknowledged := true }
    let st1 := { st with storedMatches := smUpdate st.storedMatches (who, job_id) a' }
    if changed then
      match st1.storedJobStatus job_id with
      | none => .error .jobStatusNotFound
      | some JobStatusM.open => .error .cannotAcknowledgeWhenNotMatched
      | some JobStatusM.matched =>
        .ok { st1 with
              storedJobStatus := upd st1.storedJobStatus job_id (some (.assigned 1))
              events := .jobRegistrationAssigned job_id who a' :: st1.events }
      | some (JobStatusM.assigned count) =>
        .ok { st1 with
              storedJobStatus :=
                upd st1.storedJobStatus job_id (some (.assigned (count + 1)))
              events := .jobRegistrationAssigned job_id who a' :: st1.events }
    else .ok st1

/-- `acknowledge_match` as dispatched (transactional, like `propose_matching`). -/
def acknowledge_match (st : MarketState) (who : AccountId) (job_id : JobIdM) :
    Except MError Unit × MarketState :=
  match acknowledgeMatchRaw st who job_id with
  | .ok st' => (.ok (), st')
  | .error e => (.error e, st)

/-! ## `report` (`lib.rs` lines 386-470) -/

/-- The body of the `report` extrinsic. -/
def reportRaw (env : Env) (st : MarketState) (who : AccountId) (job_id : JobIdM)
    (last : Bool) (execution_result : ExecutionResult) :
    Except MError MarketState :=
  match smLookup st.storedMatches (who, job_id) with
  | none => .error .reportFromUnassignedSource
  | some a =>
    if ¬ a.acknowledged then .error .cannotReportWhenNotAcknowledged
    else if ¬ (a.sla.met < a.sla.total) then .error .moreReportsThanExpected
    else
      let a' := { a with sla := { a.sla with met := a.sla.met + 1 } }
      let st1 := { st with storedMatches := smUpdate st.storedMatches (who, job_id) a' }
      match st1.storedJobRegistration job_id with
      | none => .error .jobRegistrationNotFound
      | some reg =>
        match checkedAdd64 env.now env.reportTolerance with
        | none => .error .calculationOverflow
        | some now_max =>
          match reg.schedule.overlaps a'.start_delay env.now now_max with
          | none => .error .calculationOverflow
          | some ov =>
            if ¬ ov then .error .reportOutsideSchedule
            else
              let st2 :=
                if last then
                  { st1 with
                    storedMatches := smRemove st1.storedMatches (who, job_id)
                    storedJobStatus := upd st1.storedJobStatus job_id none
                    storedStorageCapacity :=
                      upd st1.storedStorageCapacity who
                        (checkedAddI64 ((st1.storedStorageCapacity who).getD 0)
                          reg.storage)
                    storedJobRegistration := upd st1.storedJobRegistration job_id none }
                else st1
              if env.rewardPayOk a'.fee_per_execution who then
                let st3 := { st2 with
                             rewardPayments :=
                               (a'.fee_per_execution, who) :: st2.rewardPayments }
                let st4 :=
                  match execution_result with
                  | .success h =>
                    { st3 with events := .executionSuccess job_id h :: st3.events }
                  | .failure msg =>
                    { st3 with events := .executionFailure job_id msg :: st3.events }
                .ok { st4 with events := .reported job_id who a' :: st4.events }
              else .error .failedToPay

/-- `report` as dispatched (transactional, like `propose_matching`). -/
def report (env : Env) (st : MarketState) (who : AccountId) (job_id : JobIdM)
    (last : Bool) (execution_result : ExecutionResult) :
    Except MError Unit × MarketState :=
  match reportRaw env st who job_id last execution_result with
  | .ok st' => (.ok (), st')
  | .error e => (.error e, st)

/-! ## `advertise` (`lib.rs` lines 245-286) -/

/-- The capacity update performed by `advertise` for a provider with an
existing advertisement: `old remaining + new total - old total`, the addition
saturating to `i64::MAX` and the subtraction falling back to `0` on overflow
(`lib.rs` lines 255-264). -/
def advertiseCapacityValue (c : Option Int) (newCapacity oldCapacity : Nat) : Int :=
  (checkedSubI64 ((checkedAddI64 (c.getD 0) newCapacity).getD i64MaxI)
    oldCapacity).getD 0

/-- The pricing-update loop of `advertise` (`lib.rs` lines 279-282). -/
def advertisePricingLoop (env : Env) (who : AccountId) :
    MarketState → List PricingVariant → Except MError MarketState
  | st, [] => .ok st
  | st, p :: rest =>
    if env.validAsset p.reward_asset then
      advertisePricingLoop env who
        { st with storedAdvertisementPricing :=
            fun a =>
              if a = who then upd (st.storedAdvertisementPricing a) p.reward_asset (some p)
              else st.storedAdvertisementPricing a }
        rest
    else .error .assetNotAllowedByBarrier

/-- The body of the `advertise` extrinsic. -/
def advertiseRaw (env : Env) (st : MarketState) (who : AccountId)
    (advertisement : Advertisement) : Except MError MarketState :=
  if ¬ (advertisement.pricing.length > 0) then .error .emptyPricing
  else
    let newCap : Option Int :=
      match st.storedAdvertisementRestriction who with
      | some old =>
        some (advertiseCapacityValue (st.storedStorageCapacity who)
          advertisement.storage_capacity old.storage_capacity)
      | none => some (advertisement.storage_capacity : Int)
    let st1 := { st with storedStorageCapacity := upd st.storedStorageCapacity who newCap }
    let newAd : AdvertisementRestriction :=
      { max_memory := advertisement.max_memory
        network_request_quota := advertisement.network_request_quota
        storage_capacity := advertisement.storage_capacity
        allowed_consumers := advertisement.allowed_consumers }
    let st2 :=
      { st1 with storedAdvertisementRestriction :=
                   upd st1.storedAdvertisementRestriction who (some newAd) }
    match advertisePricingLoop env who st2 advertisement.pricing with
    | .error e => .error e
    | .ok st3 =>
      .ok { st3 with events := .advertisementStored advertisement who :: st3.events }

/-- `advertise` as dispatched (transactional, like `propose_matching`). -/
def advertise (env : Env) (st : MarketState) (who : AccountId)
    (advertisement : Advertisement) : Except MError Unit × MarketState :=
  match advertiseRaw env st who advertisement with
  | .ok st' => (.ok (), st')
  | .error e => (.error e, st)

/-! ## Specification-side definitions used for comparison -/

/-- The per-execution occupancy intervals as the spec words them for the
schedule-fit check: each execution occupies `[exec_start, exec_start +
duration)`.  Written from the spec's words, to be compared with the
implementation's `intervalsOf` (which uses `interval`). -/
def durationIntervalsOf (s : Schedule) (start_delay : Nat) :
    Option (List (Option (Nat × Nat))) :=
  (s.executionStarts start_delay).map fun starts =>
    starts.map fun st => (checkedAdd64 st s.duration).map fun e => (st, e)

/-- The schedule-fit criterion as the spec words it: disjoint periods always
fit; otherwise merge the two sorted duration-occupancy interval sequences and
fit iff no interval starts before the previous one's end.  `some true` means
the pair fits.  Written from the spec's words, to be compared with
`fits_schedule`. -/
def fitsSpecDuration (s1 : Schedule) (d1 : Nat) (s2 : Schedule) (d2 : Nat) :
    Option Bool :=
  if s1.start_time ≥ s2.end_time ∨ s1.end_time ≤ s2.start_time then some true
  else
    match durationIntervalsOf s1 d1, durationIntervalsOf s2 d2 with
    | some l1, some l2 =>
      match foldCheckOverlap 0 (mergeSorted l1 l2) with
      | .ok _ => some true
      | .error .scheduleOverlapInMatch => some false
      | .error _ => none
    | _, _ => none

/-- The "some interval starts before the previous interval's end" criterion on
a plain (overflow-free) interval list, threading the previous end. -/
def adjacentViolation : Nat → List (Nat × Nat) → Bool
  | _, [] => false
  | prev, b :: rest => decide (prev > b.1) || adjacentViolation b.2 rest

/-- Fuel-based two-pointer merge on plain (overflow-free) interval lists,
with the same ordering as `mergeSortedFuel` restricted to `some` elements. -/
def mergePlainFuel : Nat → List (Nat × Nat) → List (Nat × Nat) → List (Nat × Nat)
  | 0, xs, ys => xs ++ ys
  | _ + 1, [], ys => ys
  | _ + 1, x :: xs, [] => x :: xs
  | n + 1, x :: xs, y :: ys =>
    if decide (x.1 < y.1) || (decide (x.1 = y.1) && decide (x.2 ≤ y.2)) then
      x :: mergePlainFuel n xs (y :: ys)
    else y :: mergePlainFuel n (x :: xs) ys

/-- Two-pointer merge on plain (overflow-free) interval lists. -/
def mergePlain (xs ys : List (Nat × Nat)) : List (Nat × Nat) :=
  mergePlainFuel (xs.length + ys.length) xs ys

/-- The fee of each slot of a match, recomputed from a fixed state's pricing
table (the pricing table is not mutated during slot processing). -/
def slotFeesSpec (st : MarketState) (reg : JobRegistrationM) :
    List PlannedExecution → Option (List Nat)
  | [] => some []
  | pe :: rest =>
    match st.storedAdvertisementPricing pe.source reg.extra.reward.assetId with
    | none => none
    | some pricing =>
      match fee_per_execution reg pricing with
      | .error _ => none
      | .ok fee =>
        match slotFeesSpec st reg rest with
        | none => none
        | some fees => some (fee :: fees)

/-- `sum(fee_per_execution_i * execution_count)` over a list of slot fees. -/
def sumFees (fees : List Nat) (execCount : Nat) : Nat :=
  (fees.map fun f => f * execCount).sum

/-- A stored capacity that bars new matches: absent, or not strictly positive. -/
def badCap (v : Option Int) : Prop := ∀ x, v = some x → x ≤ 0

/-! ## Concrete fixtures used by the witnesses and counterexamples -/

/-- Scenario-A-style schedule: `start=1000, end=5000, duration=500,
interval=1000` (4 executions). -/
def schW : Schedule :=
  { duration := 500, start_time := 1000, end_time := 5000, interval := 1000 }

/-- A second schedule whose executions fall strictly inside the gaps of
`schW`'s executions (starts 1500, 2500, 3500, 4500, each of duration 300). -/
def schGap : Schedule :=
  { duration := 300, start_time := 1500, end_time := 4800, interval := 1000 }

def regW : JobRegistrationM :=
  { script := 10, allowed_sources := none, allow_only_verified_sources := false,
    schedule := schW, memory := 100, network_requests := 1, storage := 50,
    extra := { slots := 1, reward := { assetId := 5, amount := 1000000 } } }

def pricingW : PricingVariant :=
  { reward_asset := 5, fee_per_millisecond := 10, fee_per_storage_byte := 2,
    base_fee_per_execution := 100, scheduling_window := .endAt 1000000 }

def adW : AdvertisementRestriction :=
  { max_memory := 1000, network_request_quota := 10, storage_capacity := 100,
    allowed_consumers := none }

def envW : Env :=
  { now := 500, verified := fun _ => true, validAsset := fun _ => true,
    matcherPayOk := fun _ _ => true, rewardPayOk := fun _ _ => true,
    reportTolerance := 100 }

/-- A baseline state: provider `1` advertised, job `(2, 10)` registered open. -/
def stW : MarketState :=
  { storedJobStatus := fun j => if j = ((2, 10) : JobIdM) then some .open else none
    storedAdvertisementRestriction := fun a => if a = (1 : AccountId) then some adW else none
    storedAdvertisementPricing := fun a asset =>
      if a = (1 : AccountId) ∧ asset = (5 : AssetId) then some pricingW else none
    storedStorageCapacity := fun a => if a = (1 : AccountId) then some 100 else none
    storedMatches := []
    storedJobRegistration := fun j => if j = ((2, 10) : JobIdM) then some regW else none
    events := []
    matcherPayments := []
    rewardPayments := [] }

/-- The match proposal pairing job `(2, 10)` with provider `1`. -/
def mW : MatchProposal :=
  { job_id := (2, 10), sources := [{ source := 1, start_delay := 0 }] }

/-- An assignment of provider `1` to job `(2, 10)` on `schW`. -/
def asgW : Assignment :=
  { slot := 0, start_delay := 0, fee_per_execution := { assetId := 5, amount := 5200 },
    acknowledged := false, sla := { total := 4, met := 0 } }

/-- `stW` with provider `1` already committed to job `(2, 10)`. -/
def stMatched : MarketState := { stW with storedMatches := [((1, (2, 10)), asgW)] }

/-- A registration whose `duration * network_request_quota` product overflows
u64 against `adW`'s quota of 10 (duration `2^63`). -/
def regBig : JobRegistrationM :=
  { regW with schedule := { schW with duration := 9223372036854775808 } }

/-- `stW` with the job registration replaced by the overflowing `regBig`. -/
def stBig : MarketState :=
  { stW with storedJobRegistration :=
      fun j => if j = ((2, 10) : JobIdM) then some regBig else none }

/-- `stW` with provider `1` having remaining capacity `1 < regW.storage`. -/
def stCap1 : MarketState :=
  { stW with storedStorageCapacity :=
      fun a => if a = (1 : AccountId) then some 1 else none }

/-- `stW` with provider `1` having remaining capacity `0`. -/
def stCap0 : MarketState :=
  { stW with storedStorageCapacity :=
      fun a => if a = (1 : AccountId) then some 0 else none }

/-- The state after successfully processing `mW` on `stW`: the assignment is
created, provider capacity drops by `regW.storage`, the job is `Matched`. -/
def stW3 : MarketState :=
  { stW with
    storedMatches :=
      [((1, (2, 10)), slotAssignment regW 0 { source := 1, start_delay := 0 } 5200)]
    storedStorageCapacity := upd stW.storedStorageCapacity 1 (checkedSubI64 100 50)
    storedJobStatus := upd stW.storedJobStatus (2, 10) (some .matched)
    events := [.jobRegistrationMatched mW] }

/-! ## Association-list lemmas -/

theorem smLookup_smUpdate_self (l : List ((AccountId × JobIdM) × Assignment))
    (k : AccountId × JobIdM) (v a : Assignment) (h : smLookup l k = some a) :
    smLookup (smUpdate l k v) k = some v := by
  induction l with
  | nil => simp [smLookup] at h
  | cons e rest ih =>
    by_cases hek : e.1 = k
    · simp [smUpdate, smLookup, hek]
    · simp only [smUpdate, List.map_cons, if_neg hek] at *
      simp only [smLookup, if_neg hek] at h ⊢
      exact ih h

theorem smLookup_smUpdate_other (l : List ((AccountId × JobIdM) × Assignment))
    (k : AccountId × JobIdM) (v : Assignment) (k' : AccountId × JobIdM)
    (hne : k' ≠ k) : smLookup (smUpdate l k v) k' = smLookup l k' := by
  induction l with
  | nil => simp [smUpdate]
  | cons e rest ih =>
    by_cases hek : e.1 = k
    · have hek' : e.1 ≠ k' := fun h => hne (h.symm.trans hek)
      simp only [smUpdate, List.map_cons, if_pos hek]
      have h1 : ¬ ((e.1, v).1 = k') := hek'
      simp only [smLookup, if_neg hek', if_neg h1]
      simpa [smUpdate] using ih
    · simp only [smUpdate, List.map_cons, if_neg hek]
      by_cases hek' : e.1 = k'
      · simp only [smLookup, if_pos hek']
      · simp only [smLookup, if_neg hek']
        simpa [smUpdate] using ih

theorem smLookup_smRemove_self (l : List ((AccountId × JobIdM) × Assignment))
    (k : AccountId × JobIdM) : smLookup (smRemove l k) k = none := by
  induction l with
  | nil => simp [smRemove, smLookup]
  | cons e rest ih =>
    by_cases hek : e.1 = k
    · simpa [smRemove, List.filter_cons, hek] using ih
    · simp only [smRemove, List.filter_cons, ne_eq, hek, not_false_eq_true,
        decide_True, if_true]
      simp only [smLookup, if_neg hek]
      simpa [smRemove] using ih

theorem smLookup_smRemove_other (l : List ((AccountId × JobIdM) × Assignment))
    (k k' : AccountId × JobIdM) (hne : k' ≠ k) :
    smLookup (smRemove l k) k' = smLookup l k' := by
  induction l with
  | nil => simp [smRemove]
  | cons e rest ih =>
    by_cases hek : e.1 = k
    · have hek' : e.1 ≠ k' := fun h => hne (h.symm.trans hek)
      simp only [smRemove, List.filter_cons, ne_eq, hek, not_true_eq_false,
        decide_False, if_false]
      have h2 : smLookup ((e.1, e.2) :: rest) k' = smLookup rest k' := by
        simp only [smLookup, if_neg hek']
      simpa [smRemove, smLookup, if_neg hek'] using ih
    · simp only [smRemove, List.filter_cons, ne_eq, hek, not_false_eq_true,
        decide_True, if_true]
      by_cases hek' : e.1 = k'
      · simp only [smLookup, if_pos hek']
      · simp only [smLookup, if_neg hek']
        simpa [smRemove] using ih

/-! ## Claim theorems -/

/-- Claim C1 (confirmed): if `propose_matching` fails with any error, the call
leaves no partial mutation — `StoredMatches`, `StoredStorageCapacity`,
`StoredJobStatus` (indeed the whole state, events and payments included) are
exactly as before the call, and no matcher reward payment occurs. -/
theorem propose_matching_atomic (env : Env) (st : MarketState) (who : AccountId)
    (ms : List MatchProposal) (e : MError)
    (h : (propose_matching env st who ms).1 = .error e) :
    (propose_matching env st who ms).2 = st ∧
      (propose_matching env st who ms).2.matcherPayments = st.matcherPayments := by
  unfold propose_matching at *
  cases hr : proposeMatchingRaw env st who ms with
  | ok st' => simp [hr] at h
  | error e' => simp [hr]

/-- Witness for C1: a concrete failing call (empty matching), fully reverted. -/
theorem propose_matching_atomic_witness :
    (propose_matching envW stW 3 []).1 = .error .emptyMatching ∧
      (propose_matching envW stW 3 []).2 = stW ∧
      (propose_matching envW stW 3 []).2.matcherPayments = stW.matcherPayments :=
  ⟨rfl, (propose_matching_atomic envW stW 3 [] .emptyMatching rfl).1,
    (propose_matching_atomic envW stW 3 [] .emptyMatching rfl).2⟩

theorem advertisePricingLoop_fields (env : Env) (who : AccountId)
    (l : List PricingVariant) (st : MarketState)
    (hv : ∀ p ∈ l, env.validAsset p.reward_asset = true) :
    ∃ st', advertisePricingLoop env who st l = .ok st' ∧
      st'.storedStorageCapacity = st.storedStorageCapacity ∧
      st'.storedMatches = st.storedMatches ∧
      st'.storedAdvertisementRestriction = st.storedAdvertisementRestriction ∧
      st'.storedJobStatus = st.storedJobStatus ∧
      st'.storedJobRegistration = st.storedJobRegistration ∧
      st'.events = st.events := by
  induction l generalizing st with
  | nil => exact ⟨st, rfl, rfl, rfl, rfl, rfl, rfl, rfl⟩
  | cons p rest ih =>
    have hvp := hv p (List.mem_cons_self _ _)
    have hrest : ∀ q ∈ rest, env.validAsset q.reward_asset = true :=
      fun q hq => hv q (List.mem_cons_of_mem _ hq)
    obtain ⟨st', heq, h1, h2, h3, h4, h5, h6⟩ :=
      ih ({ st with storedAdvertisementPricing :=
              fun a =>
                if a = who then upd (st.storedAdvertisementPricing a) p.reward_asset (some p)
                else st.storedAdvertisementPricing a }) hrest
    refine ⟨st', ?_, h1, h2, h3, h4, h5, h6⟩
    rw [show advertisePricingLoop env who st (p :: rest) =
      advertisePricingLoop env who
        ({ st with storedAdvertisementPricing :=
            fun a =>
              if a = who then upd (st.storedAdvertisementPricing a) p.reward_asset (some p)
              else st.storedAdvertisementPricing a }) rest from by
      simp [advertisePricingLoop, hvp]]
    exact heq

/-- Claim C9 (confirmed): when `advertise` is called by a provider with a
stored advertisement of total capacity `o` and stored remaining capacity `r`,
the new stored remaining capacity is `r + n - o` for the new total `n`,
computed in i64 with the addition saturating to `i64::MAX` and the
subtraction falling back to `0` on overflow; a provider with no prior
advertisement gets remaining capacity `n`.  Existing assignments
(`StoredMatches`) are unaffected. -/
theorem advertise_capacity_update (env : Env) (st : MarketState)
    (who : AccountId) (adv : Advertisement)
    (hp : 0 < adv.pricing.length)
    (hv : ∀ p ∈ adv.pricing, env.validAsset p.reward_asset = true) :
    (advertise env st who adv).1 = .ok () ∧
    (advertise env st who adv).2.storedMatches = st.storedMatches ∧
    (∀ old r, st.storedAdvertisementRestriction who = some old →
      st.storedStorageCapacity who = some r →
      (advertise env st who adv).2.storedStorageCapacity who =
        some ((checkedSubI64 ((checkedAddI64 r adv.storage_capacity).getD i64MaxI)
          old.storage_capacity).getD 0) ∧
      (r + (adv.storage_capacity : Int) ≤ i64MaxI →
        i64MinI ≤ r + (adv.storage_capacity : Int) - (old.storage_capacity : Int) →
        (advertise env st who adv).2.storedStorageCapacity who =
          some (r + (adv.storage_capacity : Int) - (old.storage_capacity : Int)))) ∧
    (st.storedAdvertisementRestriction who = none →
      (advertise env st who adv).2.storedStorageCapacity who =
        some (adv.storage_capacity : Int)) := by
  have hng : ¬ ¬ (adv.pricing.length > 0) := not_not_intro hp
  cases had : st.storedAdvertisementRestriction who with
  | some old =>
    obtain ⟨st', heq, h1, h2, h3, h4, h5, h6⟩ :=
      advertisePricingLoop_fields env who adv.pricing
        ({ st with
           storedStorageCapacity :=
             upd st.storedStorageCapacity who
               (some (advertiseCapacityValue (st.storedStorageCapacity who)
                 adv.storage_capacity old.storage_capacity))
           storedAdvertisementRestriction :=
             upd st.storedAdvertisementRestriction who
               (some { max_memory := adv.max_memory
                       network_request_quota := adv.network_request_quota
                       storage_capacity := adv.storage_capacity
                       allowed_consumers := adv.allowed_consumers }) }) hv
    have hadv : advertise env st who adv =
        (.ok (), { st' with events := .advertisementStored adv who :: st'.events }) := by
      unfold advertise advertiseRaw
      rw [if_neg hng, had]
      show (match
          (match advertisePricingLoop env who
              ({ st with
                 storedStorageCapacity :=
                   upd st.storedStorageCapacity who
                     (some (advertiseCapacityValue (st.storedStorageCapacity who)
                       adv.storage_capacity old.storage_capacity))
                 storedAdvertisementRestriction :=
                   upd st.storedAdvertisementRestriction who
                     (some { max_memory := adv.max_memory
                             network_request_quota := adv.network_request_quota
                             storage_capacity := adv.storage_capacity
                             allowed_consumers := adv.allowed_consumers }) })
              adv.pricing with
            | Except.error e => Except.error e
            | Except.ok st3 =>
              Except.ok { st3 with events := MEvent.advertisementStored adv who :: st3.events }) with
          | Except.ok s => ((Except.ok ()), s)
          | Except.error e => ((Except.error e : Except MError Unit), st)) = _
      rw [heq]
    refine ⟨by rw [hadv], ?_, ?_, ?_⟩
    · rw [hadv]
      exact h2
    · intro old' r hold hr
      cases Option.some_inj.mp hold
      have hcap : (advertise env st who adv).2.storedStorageCapacity who =
          some (advertiseCapacityValue (st.storedStorageCapacity who)
            adv.storage_capacity old.storage_capacity) := by
        rw [hadv]
        show st'.storedStorageCapacity who = _
        rw [h1]
        simp [upd]
      rw [hr] at hcap
      constructor
      · simpa [advertiseCapacityValue] using hcap
      · intro hadd hsub
        rw [hcap]
        simp [advertiseCapacityValue, checkedAddI64, checkedSubI64, hadd, hsub]
    · intro hnone
      exact Option.noConfusion hnone
  | none =>
    obtain ⟨st', heq, h1, h2, h3, h4, h5, h6⟩ :=
      advertisePricingLoop_fields env who adv.pricing
        ({ st with
           storedStorageCapacity :=
             upd st.storedStorageCapacity who (some (adv.storage_capacity : Int))
           storedAdvertisementRestriction :=
             upd st.storedAdvertisementRestriction who
               (some { max_memory := adv.max_memory
                       network_request_quota := adv.network_request_quota
                       storage_capacity := adv.storage_capacity
                       allowed_consumers := adv.allowed_consumers }) }) hv
    have hadv : advertise env st who adv =
        (.ok (), { st' with events := .advertisementStored adv who :: st'.events }) := by
      unfold advertise advertiseRaw
      rw [if_neg hng, had]
      show (match
          (match advertisePricingLoop env who
              ({ st with
                 storedStorageCapacity :=
                   upd st.storedStorageCapacity who (some (adv.storage_capacity : Int))
                 storedAdvertisementRestriction :=
                   upd st.storedAdvertisementRestriction who
                     (some { max_memory := adv.max_memory
                             network_request_quota := adv.network_request_quota
                             storage_capacity := adv.storage_capacity
                             allowed_consumers := adv.allowed_consumers }) })
              adv.pricing with
            | Except.error e => Except.error e
            | Except.ok st3 =>
              Except.ok { st3 with events := MEvent.advertisementStored adv who :: st3.events }) with
          | Except.ok s => ((Except.ok ()), s)
          | Except.error e => ((Except.error e : Except MError Unit), st)) = _
      rw [heq]
    refine ⟨by rw [hadv], ?_, ?_, ?_⟩
    · rw [hadv]
      exact h2
    · intro old r hold hr
      exact Option.noConfusion hold
    · intro _
      rw [hadv]
      show st'.storedStorageCapacity who = _
      rw [h1]
      simp [upd]

/-- Witness for C9: a provider with prior advertisement `(total 100,
remaining 100)` re-advertising total `30` ends with remaining `30`, and its
stored matches are untouched. -/
theorem advertise_capacity_update_witness :
    (0 : Nat) < ([pricingW] : List PricingVariant).length ∧
    (advertise envW stMatched 1
      { pricing := [pricingW], max_memory := 1000, network_request_quota := 10,
        storage_capacity := 30, allowed_consumers := none }).2.storedStorageCapacity 1 =
      some ((100 : Int) + (30 : Int) - (100 : Int)) := by
  refine ⟨by decide, ?_⟩
  have h := advertise_capacity_update envW stMatched 1
    { pricing := [pricingW], max_memory := 1000, network_request_quota := 10,
      storage_capacity := 30, allowed_consumers := none }
    (by decide) (by intro p hp; rfl)
  exact ((h.2.2.1 adW 100 rfl rfl).2 (by decide) (by decide))

/-- Claim C7 (confirmed): after a first successful `acknowledge_match`, a
second call with the same provider and job succeeds as a no-op: the stored
assignments are observably unchanged (the acknowledged flag stays true), the
`JobStatus` map is untouched (no second increment), and no event is
re-emitted. -/
theorem acknowledge_match_idempotent (st : MarketState) (who : AccountId)
    (job_id : JobIdM) (a : Assignment)
    (h : smLookup st.storedMatches (who, job_id) = some a)
    (ha : a.acknowledged = true) :
    (acknowledge_match st who job_id).1 = .ok () ∧
    (∀ k, smLookup (acknowledge_match st who job_id).2.storedMatches k =
      smLookup st.storedMatches k) ∧
    (acknowledge_match st who job_id).2.storedJobStatus = st.storedJobStatus ∧
    (acknowledge_match st who job_id).2.events = st.events := by
  have ha' : ({ a with acknowledged := true } : Assignment) = a := by
    cases a
    simp_all
  have hrun : acknowledge_match st who job_id =
      (.ok (), { st with storedMatches := smUpdate st.storedMatches (who, job_id) a }) := by
    unfold acknowledge_match acknowledgeMatchRaw
    rw [h]
    simp only [ha, not_true_eq_false, if_false, ha']
  refine ⟨by rw [hrun], ?_, by rw [hrun], by rw [hrun]⟩
  intro k
  rw [hrun]
  show smLookup (smUpdate st.storedMatches (who, job_id) a) k = _
  by_cases hk : k = (who, job_id)
  · subst hk
    rw [smLookup_smUpdate_self _ _ _ a h, h]
  · exact smLookup_smUpdate_other _ _ _ _ hk

theorem reportRaw_ok_inv (env : Env) (st : MarketState) (who : AccountId)
    (job_id : JobIdM) (last : Bool) (execution_result : ExecutionResult)
    (st2 : MarketState)
    (hok : reportRaw env st who job_id last execution_result = .ok st2) :
    ∃ a reg now_max,
      smLookup st.storedMatches (who, job_id) = some a ∧
      a.acknowledged = true ∧ a.sla.met < a.sla.total ∧
      st.storedJobRegistration job_id = some reg ∧
      checkedAdd64 env.now env.reportTolerance = some now_max ∧
      st2.storedMatches =
        (if last then
          smRemove (smUpdate st.storedMatches (who, job_id)
            { a with sla := { a.sla with met := a.sla.met + 1 } }) (who, job_id)
         else smUpdate st.storedMatches (who, job_id)
            { a with sla := { a.sla with met := a.sla.met + 1 } }) := by
  cases hl : smLookup st.storedMatches (who, job_id) with
  | none => simp [reportRaw, hl] at hok
  | some a =>
    by_cases hack : a.acknowledged = true
    · by_cases hmet : a.sla.met < a.sla.total
      · cases hreg : st.storedJobRegistration job_id with
        | none => simp [reportRaw, hl, hack, hmet, hreg] at hok
        | some reg =>
          cases hnm : checkedAdd64 env.now env.reportTolerance with
          | none => simp [reportRaw, hl, hack, hmet, hreg, hnm] at hok
          | some now_max =>
            cases hov : reg.schedule.overlaps a.start_delay env.now now_max with
            | none => simp [reportRaw, hl, hack, hmet, hreg, hnm, hov] at hok
            | some ov =>
              cases ov with
              | false => simp [reportRaw, hl, hack, hmet, hreg, hnm, hov] at hok
              | true =>
                by_cases hpay : env.rewardPayOk a.fee_per_execution who = true
                · refine ⟨a, reg, now_max, rfl, hack, hmet, rfl, rfl, ?_⟩
                  simp only [reportRaw, hl, hack, hmet, hreg, hnm, hov, hpay,
                    not_true_eq_false, if_false, not_false_eq_true, if_true,
                    ite_true, ite_false] at hok
                  injection hok with hok2
                  subst hok2
                  cases last <;> cases execution_result <;> simp [hack]
                · simp [reportRaw, hl, hack, hmet, hreg, hnm, hov, hpay] at hok
      · simp [reportRaw, hl, hack, hmet] at hok
    · simp [reportRaw, hl, hack] at hok
/-- Claim C8 (confirmed): a successful `report` with `last = true` removes the
assignment, the job status and the job registration, and increases the
provider's stored capacity by exactly `registration.storage`, while every
other key of every storage map is unchanged. -/
theorem report_last_removes (env : Env) (st : MarketState) (who : AccountId)
    (job_id : JobIdM) (execution_result : ExecutionResult) (a : Assignment)
    (reg : JobRegistrationM) (c0 : Int)
    (h : smLookup st.storedMatches (who, job_id) = some a)
    (hack : a.acknowledged = true)
    (hmet : a.sla.met < a.sla.total)
    (hreg : st.storedJobRegistration job_id = some reg)
    (htol : env.now + env.reportTolerance ≤ u64Max)
    (hov : reg.schedule.overlaps a.start_delay env.now
      (env.now + env.reportTolerance) = some true)
    (hpay : env.rewardPayOk a.fee_per_execution who = true)
    (hcap : st.storedStorageCapacity who = some c0)
    (hcapov : c0 + (reg.storage : Int) ≤ i64MaxI) :
    (report env st who job_id true execution_result).1 = .ok () ∧
    smLookup (report env st who job_id true execution_result).2.storedMatches
      (who, job_id) = none ∧
    (report env st who job_id true execution_result).2.storedJobStatus job_id = none ∧
    (report env st who job_id true execution_result).2.storedJobRegistration job_id = none ∧
    (report env st who job_id true execution_result).2.storedStorageCapacity who =
      some (c0 + (reg.storage : Int)) ∧
    (∀ k, k ≠ (who, job_id) →
      smLookup (report env st who job_id true execution_result).2.storedMatches k =
        smLookup st.storedMatches k) ∧
    (∀ j, j ≠ job_id →
      (report env st who job_id true execution_result).2.storedJobStatus j =
        st.storedJobStatus j) ∧
    (∀ j, j ≠ job_id →
      (report env st who job_id true execution_result).2.storedJobRegistration j =
        st.storedJobRegistration j) ∧
    (∀ p, p ≠ who →
      (report env st who job_id true execution_result).2.storedStorageCapacity p =
        st.storedStorageCapacity p) ∧
    (report env st who job_id true execution_result).2.storedAdvertisementRestriction =
      st.storedAdvertisementRestriction ∧
    (report env st who job_id true execution_result).2.storedAdvertisementPricing =
      st.storedAdvertisementPricing := by
  have hnm : checkedAdd64 env.now env.reportTolerance =
      some (env.now + env.reportTolerance) := by
    simp [checkedAdd64, htol]
  have hca : checkedAddI64 c0 reg.storage = some (c0 + (reg.storage : Int)) := by
    simp [checkedAddI64, hcapov]
  obtain ⟨evs, hrep⟩ : ∃ evs, report env st who job_id true execution_result =
      (.ok (), { st with
        storedMatches := smRemove (smUpdate st.storedMatches (who, job_id)
          { a with sla := { a.sla with met := a.sla.met + 1 } }) (who, job_id)
        storedJobStatus := upd st.storedJobStatus job_id none
        storedStorageCapacity :=
          upd st.storedStorageCapacity who (some (c0 + (reg.storage : Int)))
        storedJobRegistration := upd st.storedJobRegistration job_id none
        rewardPayments := (a.fee_per_execution, who) :: st.rewardPayments
        events := evs }) := by
    cases execution_result with
    | success oh =>
      refine ⟨MEvent.reported job_id who
          { a with sla := { a.sla with met := a.sla.met + 1 } } ::
        MEvent.executionSuccess job_id oh :: st.events, ?_⟩
      simp [report, reportRaw, h, hack, hmet, hreg, hnm, hov, hpay, hca, hcap]
    | failure msg =>
      refine ⟨MEvent.reported job_id who
          { a with sla := { a.sla with met := a.sla.met + 1 } } ::
        MEvent.executionFailure job_id msg :: st.events, ?_⟩
      simp [report, reportRaw, h, hack, hmet, hreg, hnm, hov, hpay, hca, hcap]
  rw [hrep]
  refine ⟨rfl, ?_, ?_, ?_, ?_, ?_, ?_, ?_, ?_, rfl, rfl⟩
  · exact smLookup_smRemove_self _ _
  · simp [upd]
  · simp [upd]
  · simp [upd]
  · intro k hk
    rw [smLookup_smRemove_other _ _ _ hk, smLookup_smUpdate_other _ _ _ _ hk]
  · intro j hj
    simp [upd, hj]
  · intro j hj
    simp [upd, hj]
  · intro p hp
    simp [upd, hp]

/-- Witness for C8: a concrete final report removes all three records and
restores the provider's capacity from 100 to 150. -/
theorem report_last_removes_witness :
    (report { envW with now := 1200 }
      { stW with storedMatches := [((1, (2, 10)), { asgW with acknowledged := true })] }
      1 (2, 10) true (.success 7)).1 = .ok () ∧
    (report { envW with now := 1200 }
      { stW with storedMatches := [((1, (2, 10)), { asgW with acknowledged := true })] }
      1 (2, 10) true (.success 7)).2.storedStorageCapacity 1 =
      some ((100 : Int) + ((50 : Nat) : Int)) ∧
    (report { envW with now := 1200 }
      { stW with storedMatches := [((1, (2, 10)), { asgW with acknowledged := true })] }
      1 (2, 10) true (.success 7)).2.storedJobStatus (2, 10) = none := by
  have h := report_last_removes { envW with now := 1200 }
    { stW with storedMatches := [((1, (2, 10)), { asgW with acknowledged := true })] }
    1 (2, 10) (.success 7) { asgW with acknowledged := true } regW 100
    rfl rfl (by decide) rfl (by decide) (by decide) rfl rfl (by decide)
  exact ⟨h.1, h.2.2.2.2.1, h.2.2.1⟩

/-- Claim C6 (confirmed): `sla.met` never exceeds `sla.total`; `report`
increments `sla.met` by exactly one only when the assignment is acknowledged
and `sla.met < sla.total`; a report arriving with `sla.met = sla.total` fails
with `MoreReportsThanExpected` and leaves the whole state (in particular the
assignment) unchanged, and an unacknowledged assignment fails with
`CannotReportWhenNotAcknowledged`. -/
theorem report_sla_bounds (env : Env) (st : MarketState) (who : AccountId)
    (job_id : JobIdM) (last : Bool) (execution_result : ExecutionResult)
    (a : Assignment)
    (h : smLookup st.storedMatches (who, job_id) = some a) :
    (a.acknowledged = true → a.sla.met = a.sla.total →
      report env st who job_id last execution_result =
        (.error .moreReportsThanExpected, st)) ∧
    (a.acknowledged = false →
      report env st who job_id last execution_result =
        (.error .cannotReportWhenNotAcknowledged, st)) ∧
    (∀ st2, reportRaw env st who job_id last execution_result = .ok st2 →
      a.acknowledged = true ∧ a.sla.met < a.sla.total ∧
      smLookup st2.storedMatches (who, job_id) =
        (if last then none
         else some { a with sla := { a.sla with met := a.sla.met + 1 } })) ∧
    ((∀ k b, smLookup st.storedMatches k = some b → b.sla.met ≤ b.sla.total) →
      ∀ k b,
        smLookup (report env st who job_id last execution_result).2.storedMatches k =
          some b → b.sla.met ≤ b.sla.total) := by
  refine ⟨?_, ?_, ?_, ?_⟩
  · intro hack hmet
    have hnl : ¬ (a.sla.met < a.sla.total) := by omega
    simp [report, reportRaw, h, hack, hnl]
  · intro hack
    simp [report, reportRaw, h, hack]
  · intro st2 hok
    obtain ⟨a0, reg, nm, hl0, hack0, hmet0, _, _, hmat⟩ :=
      reportRaw_ok_inv env st who job_id last execution_result st2 hok
    cases Option.some_inj.mp (h.symm.trans hl0)
    refine ⟨hack0, hmet0, ?_⟩
    rw [hmat]
    cases last with
    | true => simp [smLookup_smRemove_self]
    | false =>
      simp only [if_false, ite_false, Bool.false_eq_true]
      exact smLookup_smUpdate_self _ _ _ _ h
  · intro hinv k b hb
    cases hraw : reportRaw env st who job_id last execution_result with
    | error e =>
      have hpost : (report env st who job_id last execution_result).2 = st := by
        unfold report
        rw [hraw]
      rw [hpost] at hb
      exact hinv k b hb
    | ok st2 =>
      have hpost : (report env st who job_id last execution_result).2 = st2 := by
        unfold report
        rw [hraw]
      rw [hpost] at hb
      obtain ⟨a0, reg, nm, hl0, hack0, hmet0, _, _, hmat⟩ :=
        reportRaw_ok_inv env st who job_id last execution_result st2 hraw
      rw [hmat] at hb
      cases last with
      | true =>
        simp only [ite_true] at hb
        by_cases hk : k = (who, job_id)
        · subst hk
          rw [smLookup_smRemove_self] at hb
          exact Option.noConfusion hb
        · rw [smLookup_smRemove_other _ _ _ hk,
            smLookup_smUpdate_other _ _ _ _ hk] at hb
          exact hinv k b hb
      | false =>
        simp only [ite_false, Bool.false_eq_true, if_false] at hb
        by_cases hk : k = (who, job_id)
        · subst hk
          rw [smLookup_smUpdate_self _ _ _ _ hl0] at hb
          cases Option.some_inj.mp hb
          simpa using Nat.succ_le_of_lt hmet0
        · rw [smLookup_smUpdate_other _ _ _ _ hk] at hb
          exact hinv k b hb

/-- Witness for C6: a concrete report with `sla.met = sla.total = 4` fails
with `MoreReportsThanExpected` and leaves the state unchanged. -/
theorem report_sla_bounds_witness :
    report envW
      { stW with storedMatches := [((1, (2, 10)),
        { asgW with acknowledged := true, sla := { total := 4, met := 4 } })] }
      1 (2, 10) false (.success 0) =
      (.error .moreReportsThanExpected,
        { stW with storedMatches := [((1, (2, 10)),
          { asgW with acknowledged := true, sla := { total := 4, met := 4 } })] }) :=
  (report_sla_bounds envW
    { stW with storedMatches := [((1, (2, 10)),
      { asgW with acknowledged := true, sla := { total := 4, met := 4 } })] }
    1 (2, 10) false (.success 0)
    { asgW with acknowledged := true, sla := { total := 4, met := 4 } } rfl).1 rfl rfl

theorem acknowledge_match_idempotent_witness :
    (acknowledge_match
      { stMatched with storedMatches := [((1, (2, 10)), { asgW with acknowledged := true })] }
      1 (2, 10)).1 = .ok () ∧
    (acknowledge_match
      { stMatched with storedMatches := [((1, (2, 10)), { asgW with acknowledged := true })] }
      1 (2, 10)).2.events =
      ({ stMatched with storedMatches := [((1, (2, 10)), { asgW with acknowledged := true })] } :
        MarketState).events := by
  have h := acknowledge_match_idempotent
    { stMatched with storedMatches := [((1, (2, 10)), { asgW with acknowledged := true })] }
    1 (2, 10) { asgW with acknowledged := true } rfl rfl
  exact ⟨h.1, h.2.2.2⟩

/-- Claim C10 (confirmed): the capacity admission test only requires the
provider's remaining capacity to be strictly positive and never compares it
to `registration.storage`: with `0 < c < storage` (all other checks passing,
and `storage` within its u32 machine width) the slot is admitted and the
commit sets the capacity to `c - storage`, which is negative. -/
theorem processSlot_capacity_goes_negative (env : Env) (reg : JobRegistrationM)
    (job_id : JobIdM) (reward_amount : Nat) (st : MarketState) (total_fee : Nat)
    (slot : Nat) (pe : PlannedExecution) (ad : AdvertisementRestriction)
    (pricing : PricingVariant) (c : Int) (fee ftc tf2 : Nat)
    (hver : reg.allow_only_verified_sources = true → env.verified pe.source = true)
    (had : st.storedAdvertisementRestriction pe.source = some ad)
    (hpr : st.storedAdvertisementPricing pe.source reg.extra.reward.assetId = some pricing)
    (hwin : checkSchedulingWindow env.now pricing.scheduling_window
      reg.schedule.end_time pe.start_delay = .ok ())
    (hmem : ad.max_memory ≥ reg.memory)
    (hq : networkQuotaOk reg.schedule.duration ad.network_request_quota
      reg.network_requests = true)
    (hcap : st.storedStorageCapacity pe.source = some c)
    (hcpos : 0 < c)
    (hclt : c < (reg.storage : Int))
    (hstor : reg.storage < 4294967296)
    (hsw : is_source_whitelisted pe.source reg = true)
    (hcw : is_consumer_whitelisted job_id.1 ad.allowed_consumers = true)
    (hfits : fits_schedule st pe.source reg.schedule pe.start_delay = .ok ())
    (hfee : fee_per_execution reg pricing = .ok fee)
    (hfle : fee ≤ reward_amount)
    (hm1 : checkedMul128 fee reg.schedule.execution_count = some ftc)
    (hm2 : checkedAdd128 total_fee ftc = some tf2)
    (hdup : smLookup st.storedMatches (pe.source, job_id) = none) :
    processSlot env reg job_id reward_amount st total_fee slot pe =
      .ok ({ st with
             storedMatches :=
               ((pe.source, job_id), slotAssignment reg slot pe fee) :: st.storedMatches
             storedStorageCapacity :=
               upd st.storedStorageCapacity pe.source
                 (some (c - (reg.storage : Int))) }, tf2) ∧
    c - (reg.storage : Int) < 0 := by
  have hstorI : (reg.storage : Int) < 4294967296 := by
    exact_mod_cast Int.ofNat_lt.mpr hstor
  have hsub : i64MinI ≤ c - (reg.storage : Int) := by
    have hmin : i64MinI = -9223372036854775808 := rfl
    omega
  have hcs : checkedSubI64 c reg.storage = some (c - (reg.storage : Int)) := by
    simp [checkedSubI64, hsub]
  have hcnd : ¬ (reg.allow_only_verified_sources = true ∧
      ¬ env.verified pe.source = true) := fun hx => hx.2 (hver hx.1)
  constructor
  · simp [processSlot, hcnd, had, hpr, hwin, hmem, hq, hcap, hcpos, hsw, hcw,
      hfits, hfee, hfle, hm1, hm2, hdup, hcs, not_lt_of_gt hcpos]
    exact hver
  · omega

/-- Witness for C10: with remaining capacity `1` and `regW.storage = 50`, the
slot is admitted and commits capacity `1 - 50 = -49`. -/
theorem processSlot_capacity_goes_negative_witness :
    processSlot envW regW (2, 10) 1000000 stCap1 0 0 { source := 1, start_delay := 0 } =
      .ok ({ stCap1 with
             storedMatches :=
               ((1, (2, 10)), slotAssignment regW 0 { source := 1, start_delay := 0 } 5200)
                 :: stCap1.storedMatches
             storedStorageCapacity :=
               upd stCap1.storedStorageCapacity 1
                 (some ((1 : Int) - ((50 : Nat) : Int))) }, 20800) ∧
    (1 : Int) - ((50 : Nat) : Int) < 0 :=
  processSlot_capacity_goes_negative envW regW (2, 10) 1000000 stCap1 0 0
    { source := 1, start_delay := 0 } adW pricingW 1 5200 20800 20800
    (fun hx => rfl) rfl rfl rfl (by decide) (by decide) rfl (by decide) (by decide)
    (by decide) rfl rfl rfl rfl (by decide) rfl rfl rfl

/-- Counterexample for C4: with `duration = 2^63` and `network_request_quota
= 10` the quota multiplication overflows u64, yet `propose_matching` fails
with `NetworkRequestQuotaExceededInMatch` — not `CalculationOverflow` as the
claim states. -/
theorem quota_overflow_not_calculation_overflow :
    checkedMul64 regBig.schedule.duration adW.network_request_quota = none ∧
    MError.networkRequestQuotaExceededInMatch ≠ MError.calculationOverflow ∧
    propose_matching envW stBig 3 [mW] =
      (.error .networkRequestQuotaExceededInMatch, stBig) :=
  ⟨by decide, by decide, rfl⟩

/-- Amended C4: checked arithmetic inside the admission pipeline aborts with
`CalculationOverflow` (as the scheduling-window, fee and total-fee steps do),
except the network-request-quota comparison, which decides overflow via
`unwrap_or` fallbacks (`0` for the left product, `u64::MAX` for the right):
whenever `duration * network_request_quota` overflows u64 and
`network_requests ≥ 1`, the slot fails with
`NetworkRequestQuotaExceededInMatch`, never `CalculationOverflow`. -/
theorem processSlot_quota_overflow (env : Env) (reg : JobRegistrationM)
    (job_id : JobIdM) (reward_amount : Nat) (st : MarketState) (total_fee : Nat)
    (slot : Nat) (pe : PlannedExecution) (ad : AdvertisementRestriction)
    (pricing : PricingVariant)
    (hver : reg.allow_only_verified_sources = true → env.verified pe.source = true)
    (had : st.storedAdvertisementRestriction pe.source = some ad)
    (hpr : st.storedAdvertisementPricing pe.source reg.extra.reward.assetId = some pricing)
    (hwin : checkSchedulingWindow env.now pricing.scheduling_window
      reg.schedule.end_time pe.start_delay = .ok ())
    (hmem : ad.max_memory ≥ reg.memory)
    (hov : checkedMul64 reg.schedule.duration ad.network_request_quota = none)
    (hreq : 1 ≤ reg.network_requests) :
    processSlot env reg job_id reward_amount st total_fee slot pe =
      .error .networkRequestQuotaExceededInMatch := by
  have hq : networkQuotaOk reg.schedule.duration ad.network_request_quota
      reg.network_requests = false := by
    unfold networkQuotaOk
    rw [hov]
    cases hc : checkedMul64 (saturatedIntoU64 reg.network_requests) 1000 with
    | none =>
      simp [u64Max]
    | some v =>
      have hv : 1000 ≤ v := by
        unfold checkedMul64 at hc
        split at hc
        · cases hc
          have h1 : 1 ≤ saturatedIntoU64 reg.network_requests := by
            unfold saturatedIntoU64 u64Max
            omega
          calc 1000 = 1 * 1000 := by omega
            _ ≤ saturatedIntoU64 reg.network_requests * 1000 :=
                Nat.mul_le_mul_right 1000 h1
        · cases hc
      simp only [Option.getD_some]
      simp
      omega
  have hcnd : ¬ (reg.allow_only_verified_sources = true ∧
      ¬ env.verified pe.source = true) := fun hx => hx.2 (hver hx.1)
  simp [processSlot, hcnd, had, hpr, hwin, hmem, hq]
  exact hver

/-- Witness for the amended C4: the concrete overflowing slot fails with
`NetworkRequestQuotaExceededInMatch`. -/
theorem processSlot_quota_overflow_witness :
    processSlot envW regBig (2, 10) 1000000 stW 0 0 { source := 1, start_delay := 0 } =
      .error .networkRequestQuotaExceededInMatch :=
  processSlot_quota_overflow envW regBig (2, 10) 1000000 stW 0 0
    { source := 1, start_delay := 0 } adW pricingW
    (fun hx => rfl) rfl rfl rfl (by decide) (by decide) (by decide)

theorem processSlot_ok_inv (env : Env) (reg : JobRegistrationM) (job_id : JobIdM)
    (reward_amount : Nat) (st : MarketState) (total_fee : Nat) (slot : Nat)
    (pe : PlannedExecution) (st2 : MarketState) (tf2 : Nat)
    (hok : processSlot env reg job_id reward_amount st total_fee slot pe =
      .ok (st2, tf2)) :
    ∃ pricing c fee ftc,
      st.storedAdvertisementPricing pe.source reg.extra.reward.assetId = some pricing ∧
      st.storedStorageCapacity pe.source = some c ∧ 0 < c ∧
      fee_per_execution reg pricing = .ok fee ∧
      checkedMul128 fee reg.schedule.execution_count = some ftc ∧
      checkedAdd128 total_fee ftc = some tf2 ∧
      smLookup st.storedMatches (pe.source, job_id) = none ∧
      st2 = { st with
              storedMatches :=
                ((pe.source, job_id), slotAssignment reg slot pe fee) :: st.storedMatches
              storedStorageCapacity :=
                upd st.storedStorageCapacity pe.source
                  (checkedSubI64 c reg.storage) } := by
  by_cases hver : (reg.allow_only_verified_sources = true ∧
      env.verified pe.source = false)
  · simp [processSlot, hver] at hok
  · cases had : st.storedAdvertisementRestriction pe.source with
    | none => simp [processSlot, hver, had] at hok
    | some ad =>
      cases hpr : st.storedAdvertisementPricing pe.source reg.extra.reward.assetId with
      | none => simp [processSlot, hver, had, hpr] at hok
      | some pricing =>
        cases hwin : checkSchedulingWindow env.now pricing.scheduling_window
            reg.schedule.end_time pe.start_delay with
        | error e => simp [processSlot, hver, had, hpr, hwin] at hok
        | ok u =>
          by_cases hmem : ad.max_memory ≥ reg.memory
          · by_cases hq : networkQuotaOk reg.schedule.duration
                ad.network_request_quota reg.network_requests = true
            · cases hcap : st.storedStorageCapacity pe.source with
              | none => simp [processSlot, hver, had, hpr, hwin, hmem, hq, hcap] at hok
              | some c =>
                by_cases hcpos : c > 0
                · by_cases hsw : is_source_whitelisted pe.source reg = true
                  · by_cases hcw : is_consumer_whitelisted job_id.1
                        ad.allowed_consumers = true
                    · cases hfits : fits_schedule st pe.source reg.schedule
                          pe.start_delay with
                      | error e =>
                        simp [processSlot, hver, had, hpr, hwin, hmem, hq, hcap,
                          hcpos, hsw, hcw, hfits] at hok
                      | ok u2 =>
                        cases hfee : fee_per_execution reg pricing with
                        | error e =>
                          simp [processSlot, hver, had, hpr, hwin, hmem, hq, hcap,
                            hcpos, hsw, hcw, hfits, hfee] at hok
                        | ok fee =>
                          by_cases hfle : fee ≤ reward_amount
                          · cases hm1 : checkedMul128 fee
                                reg.schedule.execution_count with
                            | none =>
                              simp [processSlot, hver, had, hpr, hwin, hmem, hq,
                                hcap, hcpos, hsw, hcw, hfits, hfee, hfle, hm1] at hok
                            | some ftc =>
                              cases hm2 : checkedAdd128 total_fee ftc with
                              | none =>
                                simp [processSlot, hver, had, hpr, hwin, hmem, hq,
                                  hcap, hcpos, hsw, hcw, hfits, hfee, hfle, hm1,
                                  hm2] at hok
                              | some tf3 =>
                                cases hdup : smLookup st.storedMatches
                                    (pe.source, job_id) with
                                | some a0 =>
                                  simp [processSlot, hver, had, hpr, hwin, hmem,
                                    hq, hcap, hcpos, hsw, hcw, hfits, hfee, hfle,
                                    hm1, hm2, hdup] at hok
                                | none =>
                                  simp [processSlot, hver, had, hpr, hwin, hmem,
                                    hq, hcap, hcpos, hsw, hcw, hfits, hfee, hfle,
                                    hm1, hm2, hdup] at hok
                                  obtain ⟨hst, htf⟩ := hok
                                  exact ⟨pricing, c, fee, ftc, rfl, rfl, hcpos,
                                    hfee, hm1, by rw [hm2, htf], rfl,
                                    by rw [hst]⟩
                          · simp [processSlot, hver, had, hpr, hwin, hmem, hq,
                              hcap, hcpos, hsw, hcw, hfits, hfee, hfle] at hok
                    · simp [processSlot, hver, had, hpr, hwin, hmem, hq, hcap,
                        hcpos, hsw, hcw] at hok
                  · simp [processSlot, hver, had, hpr, hwin, hmem, hq, hcap,
                      hcpos, hsw] at hok
                · simp [processSlot, hver, had, hpr, hwin, hmem, hq, hcap,
                    hcpos] at hok
            · simp [processSlot, hver, had, hpr, hwin, hmem, hq] at hok
          · simp [processSlot, hver, had, hpr, hwin, hmem] at hok

theorem processSlot_cap_pos (env : Env) (reg : JobRegistrationM) (job_id : JobIdM)
    (reward_amount : Nat) (st : MarketState) (total_fee slot : Nat)
    (pe : PlannedExecution) (st2 : MarketState) (tf2 : Nat) (p : AccountId)
    (hok : processSlot env reg job_id reward_amount st total_fee slot pe =
      .ok (st2, tf2)) (hsrc : pe.source = p) :
    ∃ c, st.storedStorageCapacity p = some c ∧ 0 < c := by
  obtain ⟨pricing, c, fee, ftc, _, hcap, hcpos, _⟩ :=
    processSlot_ok_inv env reg job_id reward_amount st total_fee slot pe st2 tf2 hok
  exact ⟨c, hsrc ▸ hcap, hcpos⟩

theorem processSlot_cap_other (env : Env) (reg : JobRegistrationM) (job_id : JobIdM)
    (reward_amount : Nat) (st : MarketState) (total_fee slot : Nat)
    (pe : PlannedExecution) (st2 : MarketState) (tf2 : Nat) (p : AccountId)
    (hok : processSlot env reg job_id reward_amount st total_fee slot pe =
      .ok (st2, tf2)) (hne : pe.source ≠ p) :
    st2.storedStorageCapacity p = st.storedStorageCapacity p := by
  obtain ⟨pricing, c, fee, ftc, _, _, _, _, _, _, _, hst2⟩ :=
    processSlot_ok_inv env reg job_id reward_amount st total_fee slot pe st2 tf2 hok
  rw [hst2]
  simp [upd, Ne.symm hne]

theorem processSlots_badCap (env : Env) (reg : JobRegistrationM) (job_id : JobIdM)
    (reward_amount : Nat) (p : AccountId) (l : List PlannedExecution) :
    ∀ (st : MarketState) (total_fee slot : Nat) (st2 : MarketState) (tf2 : Nat),
    processSlots env reg job_id reward_amount st total_fee slot l = .ok (st2, tf2) →
    badCap (st.storedStorageCapacity p) →
    (∀ pe ∈ l, pe.source ≠ p) ∧
    st2.storedStorageCapacity p = st.storedStorageCapacity p := by
  induction l with
  | nil =>
    intro st total_fee slot st2 tf2 hok hbad
    simp only [processSlots, Except.ok.injEq, Prod.mk.injEq] at hok
    obtain ⟨h1, _⟩ := hok
    exact ⟨by simp, by rw [← h1]⟩
  | cons pe rest ih =>
    intro st total_fee slot st2 tf2 hok hbad
    cases hs : processSlot env reg job_id reward_amount st total_fee slot pe with
    | error e => simp [processSlots, hs] at hok
    | ok pr =>
      obtain ⟨st1, tf1⟩ := pr
      have hok2 : processSlots env reg job_id reward_amount st1 tf1 (slot + 1)
          rest = .ok (st2, tf2) := by
        simpa [processSlots, hs] using hok
      have hne : pe.source ≠ p := by
        intro he
        obtain ⟨c, hc, hcpos⟩ := processSlot_cap_pos env reg job_id reward_amount
          st total_fee slot pe st1 tf1 p hs he
        have := hbad c hc
        omega
      have hpres := processSlot_cap_other env reg job_id reward_amount
        st total_fee slot pe st1 tf1 p hs hne
      have hbad1 : badCap (st1.storedStorageCapacity p) := by
        rw [hpres]
        exact hbad
      obtain ⟨hall, heq⟩ := ih st1 tf1 (slot + 1) st2 tf2 hok2 hbad1
      refine ⟨?_, heq.trans hpres⟩
      intro q hq
      rcases List.mem_cons.mp hq with h | h
      · exact h ▸ hne
      · exact hall q h

theorem processMatchOne_ok_inv (env : Env) (st : MarketState) (m : MatchProposal)
    (rem : Option (RewardM × Nat)) (st' : MarketState)
    (rem' : Option (RewardM × Nat))
    (hok : processMatchOne env st m rem = .ok (st', rem')) :
    ∃ reg stS total_fee total diff,
      st.storedJobRegistration m.job_id = some reg ∧
      env.now < reg.schedule.start_time ∧
      processSlots env reg m.job_id reg.extra.reward.amount st 0 0 m.sources =
        .ok (stS, total_fee) ∧
      total_reward_amount reg = .ok total ∧
      checkedSubAmount total total_fee = some diff ∧
      (rem = none → rem' = some (reg.extra.reward, diff)) ∧
      (∀ r acc, rem = some (r, acc) → ∃ acc2, r = reg.extra.reward ∧
        checkedAdd128 acc diff = some acc2 ∧ rem' = some (r, acc2)) ∧
      st' = { stS with
              storedJobStatus :=
                upd stS.storedJobStatus (m.job_id.1, reg.script) (some .matched)
              events := .jobRegistrationMatched m :: stS.events } := by
  cases hreg : st.storedJobRegistration m.job_id with
  | none => simp [processMatchOne, hreg] at hok
  | some reg =>
    by_cases hnow : env.now < reg.schedule.start_time
    · by_cases hcnt : (if m.sources.length < 256 then m.sources.length else 0) =
          reg.extra.slots
      · by_cases hasset : env.validAsset reg.extra.reward.assetId = true
        · cases hsl : processSlots env reg m.job_id reg.extra.reward.amount st 0 0
              m.sources with
          | error e =>
            simp [processMatchOne, hreg, hnow, hcnt, hasset, hsl] at hok
          | ok pr =>
            obtain ⟨stS, total_fee⟩ := pr
            cases htot : total_reward_amount reg with
            | error e =>
              simp [processMatchOne, hreg, hnow, hcnt, hasset, hsl, htot] at hok
            | ok total =>
              cases hdiff : checkedSubAmount total total_fee with
              | none =>
                simp [processMatchOne, hreg, hnow, hcnt, hasset, hsl, htot,
                  hdiff] at hok
              | some diff =>
                cases rem with
                | none =>
                  simp [processMatchOne, hreg, hnow, hcnt, hasset, hsl, htot,
                    hdiff] at hok
                  obtain ⟨h1, h2⟩ := hok
                  refine ⟨reg, stS, total_fee, total, diff, rfl, hnow, hsl, htot,
                    hdiff, fun _ => by rw [← h2], fun r acc hr =>
                      Option.noConfusion hr, by rw [← h1]⟩
                | some rpair =>
                  obtain ⟨r, acc⟩ := rpair
                  by_cases hre : r = reg.extra.reward
                  · cases hacc : checkedAdd128 acc diff with
                    | none =>
                      simp [processMatchOne, hreg, hnow, hcnt, hasset, hsl, htot,
                        hdiff, hre, hacc] at hok
                    | some acc2 =>
                      simp [processMatchOne, hreg, hnow, hcnt, hasset, hsl, htot,
                        hdiff, hre, hacc] at hok
                      obtain ⟨h1, h2⟩ := hok
                      refine ⟨reg, stS, total_fee, total, diff, rfl, hnow, hsl,
                        htot, hdiff, fun hn => Option.noConfusion hn, ?_,
                        by rw [← h1]⟩
                      intro r2 acc3 hr2
                      obtain ⟨hr2a, hr2b⟩ := Prod.mk.injEq _ _ _ _ ▸
                        Option.some_inj.mp hr2
                      subst hr2a
                      subst hr2b
                      exact ⟨acc2, hre, hacc, by rw [← h2, hre]⟩
                  · simp [processMatchOne, hreg, hnow, hcnt, hasset, hsl, htot,
                      hdiff, hre] at hok
        · simp [processMatchOne, hreg, hnow, hcnt, hasset] at hok
      · simp [processMatchOne, hreg, hnow, hcnt] at hok
    · simp [processMatchOne, hreg, hnow] at hok

theorem processMatchOne_named_cap (env : Env) (st : MarketState)
    (m : MatchProposal) (rem : Option (RewardM × Nat)) (st' : MarketState)
    (rem' : Option (RewardM × Nat)) (p : AccountId)
    (hok : processMatchOne env st m rem = .ok (st', rem'))
    (hbad : badCap (st.storedStorageCapacity p)) :
    (∀ pe ∈ m.sources, pe.source ≠ p) ∧
    st'.storedStorageCapacity p = st.storedStorageCapacity p := by
  obtain ⟨reg, stS, total_fee, total, diff, hreg, hnow, hsl, _, _, _, _, hst'⟩ :=
    processMatchOne_ok_inv env st m rem st' rem' hok
  obtain ⟨hall, heq⟩ := processSlots_badCap env reg m.job_id
    reg.extra.reward.amount p m.sources st 0 0 stS total_fee hsl hbad
  refine ⟨hall, ?_⟩
  rw [hst']
  exact heq

theorem processMatchingGo_named_cap (env : Env) (p : AccountId)
    (ms : List MatchProposal) :
    ∀ (st : MarketState) (rem : Option (RewardM × Nat)) (st' : MarketState)
      (rem' : Option (RewardM × Nat)),
    processMatchingGo env st rem ms = .ok (st', rem') →
    badCap (st.storedStorageCapacity p) →
    (∀ m ∈ ms, ∀ pe ∈ m.sources, pe.source ≠ p) ∧
    st'.storedStorageCapacity p = st.storedStorageCapacity p := by
  induction ms with
  | nil =>
    intro st rem st' rem' hok hbad
    simp only [processMatchingGo, Except.ok.injEq, Prod.mk.injEq] at hok
    obtain ⟨h1, _⟩ := hok
    exact ⟨by simp, by rw [← h1]⟩
  | cons m rest ih =>
    intro st rem st' rem' hok hbad
    cases ho : processMatchOne env st m rem with
    | error e => simp [processMatchingGo, ho] at hok
    | ok pr =>
      obtain ⟨st1, rem1⟩ := pr
      have hok2 : processMatchingGo env st1 rem1 rest = .ok (st', rem') := by
        simpa [processMatchingGo, ho] using hok
      obtain ⟨hall1, heq1⟩ := processMatchOne_named_cap env st m rem st1 rem1 p
        ho hbad
      have hbad1 : badCap (st1.storedStorageCapacity p) := by
        rw [heq1]
        exact hbad
      obtain ⟨hall, heq⟩ := ih st1 rem1 st' rem' hok2 hbad1
      refine ⟨?_, heq.trans heq1⟩
      intro m2 hm2
      rcases List.mem_cons.mp hm2 with h | h
      · exact h ▸ hall1
      · exact hall m2 h

/-- Claim C5 (confirmed): a provider whose stored remaining capacity is ≤ 0
cannot receive new matches: every `propose_matching` naming it in any slot
fails, with the whole state returned unchanged (so no Assignment is created
for it), and when the slot's earlier admission checks pass the failing check
is the capacity one, with error `InsufficientStorageCapacityInMatch`. -/
theorem propose_matching_capacity_nonpositive (env : Env) (st : MarketState)
    (who : AccountId) (ms : List MatchProposal) (p : AccountId) (c : Int)
    (m : MatchProposal) (pe : PlannedExecution)
    (hcap : st.storedStorageCapacity p = some c) (hc : c ≤ 0)
    (hm : m ∈ ms) (hpe : pe ∈ m.sources) (hsrc : pe.source = p) :
    (∃ e, propose_matching env st who ms = (.error e, st)) ∧
    (∀ (reg : JobRegistrationM) (job_id : JobIdM)
       (reward_amount total_fee slot : Nat) (ad : AdvertisementRestriction)
       (pricing : PricingVariant) (delay : Nat),
      (reg.allow_only_verified_sources = true → env.verified p = true) →
      st.storedAdvertisementRestriction p = some ad →
      st.storedAdvertisementPricing p reg.extra.reward.assetId = some pricing →
      checkSchedulingWindow env.now pricing.scheduling_window
        reg.schedule.end_time delay = .ok () →
      ad.max_memory ≥ reg.memory →
      networkQuotaOk reg.schedule.duration ad.network_request_quota
        reg.network_requests = true →
      processSlot env reg job_id reward_amount st total_fee slot
        { source := p, start_delay := delay } =
        .error .insufficientStorageCapacityInMatch) := by
  have hbad : badCap (st.storedStorageCapacity p) := by
    intro x hx
    rw [hcap] at hx
    cases Option.some_inj.mp hx
    exact hc
  constructor
  · cases hraw : proposeMatchingRaw env st who ms with
    | error e =>
      exact ⟨e, by unfold propose_matching; rw [hraw]⟩
    | ok stf =>
      exfalso
      unfold proposeMatchingRaw at hraw
      cases hpm : process_matching env st ms with
      | error e => rw [hpm] at hraw; exact Except.noConfusion hraw
      | ok pr =>
        unfold process_matching at hpm
        cases hgo : processMatchingGo env st none ms with
        | error e => rw [hgo] at hpm; exact Except.noConfusion hpm
        | ok gpr =>
          obtain ⟨stg, remg⟩ := gpr
          obtain ⟨hall, _⟩ := processMatchingGo_named_cap env p ms st none stg
            remg hgo hbad
          exact hall m hm pe hpe hsrc
  · intro reg job_id reward_amount total_fee slot ad pricing delay hver had hpr
      hwin hmem hq
    have hcnd : ¬ (reg.allow_only_verified_sources = true ∧
        env.verified ({ source := p, start_delay := delay } :
          PlannedExecution).source = false) := by
      intro hx
      have := hver hx.1
      rw [this] at hx
      exact Bool.noConfusion hx.2
    have hnc : ¬ ((0 : Int) < c) := not_lt.mpr hc
    simp [processSlot, hcnd, had, hpr, hwin, hmem, hq, hcap, hnc]

/-- Witness for C5: provider `1` with capacity `0`; the call fails with the
state unchanged, and the slot check fails with
`InsufficientStorageCapacityInMatch`. -/
theorem propose_matching_capacity_nonpositive_witness :
    (∃ e, propose_matching envW stCap0 3 [mW] = (.error e, stCap0)) ∧
    processSlot envW regW (2, 10) 1000000 stCap0 0 0
      { source := 1, start_delay := 0 } =
      .error .insufficientStorageCapacityInMatch := by
  have h := propose_matching_capacity_nonpositive envW stCap0 3 [mW] 1 0 mW
    { source := 1, start_delay := 0 } rfl (by decide)
    (by simp [mW]) (by simp [mW]) rfl
  exact ⟨h.1, h.2 regW (2, 10) 1000000 0 0 adW pricingW 0 (fun _ => rfl) rfl rfl
    rfl (by decide) (by decide)⟩

theorem checkedMul128_some {a b v : Nat} (h : checkedMul128 a b = some v) :
    v = a * b := by
  unfold checkedMul128 at h
  split at h
  · exact (Option.some_inj.mp h).symm
  · exact Option.noConfusion h

theorem checkedAdd128_some {a b v : Nat} (h : checkedAdd128 a b = some v) :
    v = a + b := by
  unfold checkedAdd128 at h
  split at h
  · exact (Option.some_inj.mp h).symm
  · exact Option.noConfusion h

theorem checkedSubAmount_some {a b v : Nat} (h : checkedSubAmount a b = some v) :
    b ≤ a ∧ v = a - b := by
  unfold checkedSubAmount at h
  split at h
  · exact ⟨by assumption, (Option.some_inj.mp h).symm⟩
  · exact Option.noConfusion h

theorem total_reward_amount_eq (reg : JobRegistrationM) (total : Nat)
    (h : total_reward_amount reg = .ok total) :
    total = reg.extra.reward.amount * reg.extra.slots *
      reg.schedule.execution_count := by
  cases h1 : checkedMul128 reg.extra.reward.amount reg.extra.slots with
  | none => simp [total_reward_amount, h1] at h
  | some a =>
    cases h2 : checkedMul128 a reg.schedule.execution_count with
    | none => simp [total_reward_amount, h1, h2] at h
    | some b =>
      simp only [total_reward_amount, h1, h2] at h
      have hb := Except.ok.inj h
      rw [← hb, checkedMul128_some h2, checkedMul128_some h1]

theorem slotFeesSpec_congr (st1 st2 : MarketState) (reg : JobRegistrationM)
    (l : List PlannedExecution)
    (h : st1.storedAdvertisementPricing = st2.storedAdvertisementPricing) :
    slotFeesSpec st1 reg l = slotFeesSpec st2 reg l := by
  induction l with
  | nil => rfl
  | cons pe rest ih => simp [slotFeesSpec, h, ih]

theorem processSlots_fees (env : Env) (reg : JobRegistrationM) (job_id : JobIdM)
    (reward_amount : Nat) (l : List PlannedExecution) :
    ∀ (st : MarketState) (total_fee slot : Nat) (st2 : MarketState) (tf2 : Nat),
    processSlots env reg job_id reward_amount st total_fee slot l = .ok (st2, tf2) →
    st2.storedAdvertisementPricing = st.storedAdvertisementPricing ∧
    ∃ fees, slotFeesSpec st reg l = some fees ∧
      tf2 = total_fee + sumFees fees reg.schedule.execution_count := by
  induction l with
  | nil =>
    intro st total_fee slot st2 tf2 hok
    simp only [processSlots, Except.ok.injEq, Prod.mk.injEq] at hok
    obtain ⟨h1, h2⟩ := hok
    exact ⟨by rw [← h1], [], rfl, by simp [sumFees, ← h2]⟩
  | cons pe rest ih =>
    intro st total_fee slot st2 tf2 hok
    cases hs : processSlot env reg job_id reward_amount st total_fee slot pe with
    | error e => simp [processSlots, hs] at hok
    | ok pr =>
      obtain ⟨st1, tf1⟩ := pr
      have hok2 : processSlots env reg job_id reward_amount st1 tf1 (slot + 1)
          rest = .ok (st2, tf2) := by
        simpa [processSlots, hs] using hok
      obtain ⟨pricing, c, fee, ftc, hpr, hcap, hcpos, hfee, hm1, hm2, hdup, hst1⟩ :=
        processSlot_ok_inv env reg job_id reward_amount st total_fee slot pe
          st1 tf1 hs
      have hpr1 : st1.storedAdvertisementPricing = st.storedAdvertisementPricing := by
        rw [hst1]
      obtain ⟨hprs, fees, hspec, hsum⟩ := ih st1 tf1 (slot + 1) st2 tf2 hok2
      refine ⟨hprs.trans hpr1, fee :: fees, ?_, ?_⟩
      · have hrest : slotFeesSpec st reg rest = some fees := by
          rw [slotFeesSpec_congr st st1 reg rest hpr1.symm]
          exact hspec
        simp only [slotFeesSpec, hpr, hfee, hrest]
      · have hftc := checkedMul128_some hm1
        have htf1 := checkedAdd128_some hm2
        simp only [sumFees, List.map_cons, List.sum_cons] at *
        omega

/-- Claim C3 (confirmed): for every job matched by a successful
`propose_matching` call (the per-job step `processMatchOne`), the job's
contribution `diff` to the remaining reward paid to the matcher satisfies
`sum(fee_per_execution_i * execution_count) + diff = total_reward_amount`,
with `fee_per_execution_i` computed by `fee_per_execution` from the slot's
pricing and `total_reward_amount = reward_amount_per_slot_execution * slots *
execution_count`, all under checked arithmetic. -/
theorem process_matching_conservation (env : Env) (st : MarketState)
    (m : MatchProposal) (rem : Option (RewardM × Nat)) (st' : MarketState)
    (rem' : Option (RewardM × Nat))
    (hok : processMatchOne env st m rem = .ok (st', rem')) :
    ∃ reg fees total diff,
      st.storedJobRegistration m.job_id = some reg ∧
      slotFeesSpec st reg m.sources = some fees ∧
      total_reward_amount reg = .ok total ∧
      total = reg.extra.reward.amount * reg.extra.slots *
        reg.schedule.execution_count ∧
      sumFees fees reg.schedule.execution_count + diff = total ∧
      (rem = none → rem' = some (reg.extra.reward, diff)) ∧
      (∀ r acc, rem = some (r, acc) →
        ∃ acc2, rem' = some (r, acc2) ∧ acc2 = acc + diff) := by
  obtain ⟨reg, stS, total_fee, total, diff, hreg, hnow, hsl, htot, hdiff, hrn,
    hrs, hst'⟩ := processMatchOne_ok_inv env st m rem st' rem' hok
  obtain ⟨hprs, fees, hspec, hsum⟩ := processSlots_fees env reg m.job_id
    reg.extra.reward.amount m.sources st 0 0 stS total_fee hsl
  obtain ⟨hle, hdeq⟩ := checkedSubAmount_some hdiff
  refine ⟨reg, fees, total, diff, hreg, hspec, htot,
    total_reward_amount_eq reg total htot, by omega, hrn, ?_⟩
  intro r acc hr
  obtain ⟨acc2, hre, hacc, hrem⟩ := hrs r acc hr
  exact ⟨acc2, hrem, checkedAdd128_some hacc⟩

/-- Witness for C3: the concrete successful match of `mW` on `stW`:
`fees = [5200]`, `execution_count = 4`, `total = 4000000`, so the matcher's
remaining reward contribution is `4000000 - 20800 = 3979200`. -/
theorem process_matching_conservation_witness :
    ∃ reg fees total diff,
      stW.storedJobRegistration mW.job_id = some reg ∧
      slotFeesSpec stW reg mW.sources = some fees ∧
      total_reward_amount reg = .ok total ∧
      total = reg.extra.reward.amount * reg.extra.slots *
        reg.schedule.execution_count ∧
      sumFees fees reg.schedule.execution_count + diff = total ∧
      ((none : Option (RewardM × Nat)) = none →
        some ({ assetId := 5, amount := 1000000 }, 3979200) =
          some (reg.extra.reward, diff)) ∧
      (∀ r acc, (none : Option (RewardM × Nat)) = some (r, acc) →
        ∃ acc2, some (({ assetId := 5, amount := 1000000 } : RewardM), 3979200) =
          some (r, acc2) ∧ acc2 = acc + diff) :=
  process_matching_conservation envW stW mW none stW3
    (some ({ assetId := 5, amount := 1000000 }, 3979200)) rfl

theorem mergeSortedFuel_map_some (n : Nat) :
    ∀ (l1 l2 : List (Nat × Nat)),
    mergeSortedFuel n (l1.map some) (l2.map some) =
      (mergePlainFuel n l1 l2).map some := by
  induction n with
  | zero =>
    intro l1 l2
    simp [mergeSortedFuel, mergePlainFuel]
  | succ n ih =>
    intro l1 l2
    cases l1 with
    | nil => simp [mergeSortedFuel, mergePlainFuel]
    | cons x xs =>
      cases l2 with
      | nil => simp [mergeSortedFuel, mergePlainFuel]
      | cons y ys =>
        by_cases hc : (decide (x.1 < y.1) || (decide (x.1 = y.1) &&
            decide (x.2 ≤ y.2))) = true
        · have h3 := ih xs (y :: ys)
          simp only [List.map_cons] at h3
          simp only [List.map_cons, mergeSortedFuel, mergePlainFuel,
            optIntervalLe, hc, if_true, h3]
        · have h3 := ih (x :: xs) ys
          simp only [List.map_cons] at h3
          simp only [List.map_cons, mergeSortedFuel, mergePlainFuel,
            optIntervalLe, hc, if_false, h3]
          simp

theorem mergeSorted_map_some (l1 l2 : List (Nat × Nat)) :
    mergeSorted (l1.map some) (l2.map some) = (mergePlain l1 l2).map some := by
  unfold mergeSorted mergePlain
  rw [List.length_map, List.length_map]
  exact mergeSortedFuel_map_some (l1.length + l2.length) l1 l2

theorem foldCheckOverlap_map_some (l : List (Nat × Nat)) :
    ∀ prev : Nat,
    (foldCheckOverlap prev (l.map some) = .error .scheduleOverlapInMatch ↔
      adjacentViolation prev l = true) ∧
    ((∃ n, foldCheckOverlap prev (l.map some) = .ok n) ↔
      adjacentViolation prev l = false) := by
  induction l with
  | nil =>
    intro prev
    simp [foldCheckOverlap, adjacentViolation]
  | cons b rest ih =>
    intro prev
    by_cases h : prev > b.1
    · simp [foldCheckOverlap, adjacentViolation, h]
    · simp only [List.map_cons, foldCheckOverlap, adjacentViolation, h, if_neg h]
      simp [h, ih b.2]

/-- Counterexample to C2: a second job whose executions fall strictly inside
the gaps of the first job's executions (the claim's duration-based criterion
accepts it: `fitsSpecDuration … = some true`) is nonetheless rejected by the
implementation with `ScheduleOverlap`, because `fits_schedule` occupies each
execution with `interval`, not `duration` (`lib.rs` line 853). -/
theorem fits_schedule_gap_rejected :
    fits_schedule stMatched 1 schGap 0 = .error .scheduleOverlapInMatch ∧
    fitsSpecDuration schGap 0 schW 0 = some true :=
  ⟨rfl, rfl⟩

/-- Amended C2: for a provider with one committed schedule whose period
overlaps the proposed one, the schedule-fit check rejects if and only if the
merged sorted execution-interval sequences contain an interval starting
before the previous interval's end, where each execution occupies
`[exec_start, exec_start + interval)` (the schedule's `interval`, not its
`duration`); in particular gap-fitting jobs inside the interval span are
rejected with `ScheduleOverlap`. -/
theorem fits_schedule_interval_iff (st : MarketState) (p : AccountId)
    (sched : Schedule) (delay : Nat) (job_id : JobIdM) (a : Assignment)
    (other : JobRegistrationM) (l1 l2 : List (Nat × Nat))
    (hm : smOfSource st.storedMatches p = [((p, job_id), a)])
    (hreg : st.storedJobRegistration job_id = some other)
    (hper : ¬ (sched.start_time ≥ other.schedule.end_time ∨
      sched.end_time ≤ other.schedule.start_time))
    (h1 : intervalsOf sched delay = some (l1.map some))
    (h2 : intervalsOf other.schedule a.start_delay = some (l2.map some)) :
    (fits_schedule st p sched delay = .error .scheduleOverlapInMatch ↔
      adjacentViolation 0 (mergePlain l1 l2) = true) ∧
    (fits_schedule st p sched delay = .ok () ↔
      adjacentViolation 0 (mergePlain l1 l2) = false) := by
  have hfa : fits_schedule st p sched delay =
      (match foldCheckOverlap 0 ((mergePlain l1 l2).map some) with
       | Except.error e => (Except.error e : Except MError Unit)
       | Except.ok _ => Except.ok ()) := by
    unfold fits_schedule
    rw [hm]
    show (match fitsAgainst st sched delay job_id a with
          | Except.error er => (Except.error er : Except MError Unit)
          | Except.ok _ => fitsList st sched delay []) = _
    unfold fitsAgainst
    simp only [hreg]
    rw [if_neg hper]
    simp only [h1, h2]
    rw [mergeSorted_map_some]
    cases foldCheckOverlap 0 ((mergePlain l1 l2).map some) with
    | error e => rfl
    | ok n => rfl
  obtain ⟨hiff1, hiff2⟩ := foldCheckOverlap_map_some (mergePlain l1 l2) 0
  constructor
  · rw [hfa]
    constructor
    · intro hcase
      cases hf : foldCheckOverlap 0 ((mergePlain l1 l2).map some) with
      | error e =>
        rw [hf] at hcase
        have he : e = .scheduleOverlapInMatch := by
          cases hcase
          rfl
        exact hiff1.mp (he ▸ hf)
      | ok n =>
        rw [hf] at hcase
        exact Except.noConfusion hcase
    · intro hv
      rw [hiff1.mpr hv]
  · rw [hfa]
    constructor
    · intro hcase
      cases hf : foldCheckOverlap 0 ((mergePlain l1 l2).map some) with
      | error e =>
        rw [hf] at hcase
        exact Except.noConfusion hcase
      | ok n =>
        exact hiff2.mp ⟨n, hf⟩
    · intro hv
      obtain ⟨n, hf⟩ := hiff2.mpr hv
      rw [hf]

/-- Witness for the amended C2: on the concrete gap-fitting pair the merged
interval-occupancy sequences do contain a violating interval, and the check
rejects accordingly. -/
theorem fits_schedule_interval_iff_witness :
    smOfSource stMatched.storedMatches 1 = [((1, (2, 10)), asgW)] ∧
    (fits_schedule stMatched 1 schGap 0 = .error .scheduleOverlapInMatch ↔
      adjacentViolation 0 (mergePlain
        [(1500, 2500), (2500, 3500), (3500, 4500), (4500, 5500)]
        [(1000, 2000), (2000, 3000), (3000, 4000), (4000, 5000)]) = true) := by
  refine ⟨rfl, ?_⟩
  exact (fits_schedule_interval_iff stMatched 1 schGap 0 (2, 10) asgW regW
    [(1500, 2500), (2500, 3500), (3500, 4500), (4500, 5500)]
    [(1000, 2000), (2000, 3000), (3000, 4000), (4000, 5000)]
    rfl rfl (by decide) rfl rfl).1

end Acurast
